import Mathlib

/-!
Verification of the `custom_filter` repository: a schema-driven filter
library (`FilterLibrary` in `src/lib/filter.ts` / `queryBuilder.ts`) with a
validator, a Mongo-style compiler (`toMongoQuery`), a SQL compiler
(`toSqlWhere`), a registry (`buildQuery`) and an in-memory evaluator
(`UserRepository.matchesQuery` in `src/repo/userRepository.ts`).

The source is TypeScript running on a dynamically-typed runtime, so the
embedding works over a universe `JVal` of JavaScript runtime values and
models thrown exceptions with `Except String`.  Modelling choices:
* JS numbers are modelled as `Int` (every number appearing in the claims
  is an integer; NaN/float behaviour is out of scope).
* `Date` objects are modelled as `JVal.jdate` carrying a timestamp; strict
  equality between two distinct object-like values (objects, arrays,
  dates) is modelled as `false`, matching JS reference inequality for
  values of distinct provenance (a record field and a query value are
  never the same reference).
* `Date.parse`-failure and `RegExp.test` are environment functions of the
  JS runtime; they are taken as parameters (`dp`, `rex`) of the embedded
  functions that use them.
-/

namespace CustomFilter

/-- Universe of JavaScript runtime values. -/
inductive JVal where
  | jnull
  | jundef
  | jbool (b : Bool)
  | jnum (n : Int)
  | jstr (s : String)
  | jarr (xs : List JVal)
  | jobj (fields : List (String × JVal))
  | jdate (t : Int)

/-- JS truthiness (`!v` negated). -/
def truthy : JVal → Bool
  | .jnull => false
  | .jundef => false
  | .jbool b => b
  | .jnum n => n != 0
  | .jstr s => s != ""
  | .jarr _ => true
  | .jobj _ => true
  | .jdate _ => true

/-- `Array.prototype.join(sep)` on already-stringified elements. -/
def joinSep (sep : String) : List String → String
  | [] => ""
  | [a] => a
  | a :: rest => a ++ sep ++ joinSep sep rest

mutual

/-- JS `String(v)` / template-literal coercion. -/
def jsToString : JVal → String
  | .jnull => "null"
  | .jundef => "undefined"
  | .jbool b => if b then "true" else "false"
  | .jnum n => toString n
  | .jstr s => s
  | .jarr xs => joinSep "," (jsToStringArr xs)
  | .jobj _ => "[object Object]"
  | .jdate t => "Date(" ++ toString t ++ ")"

/-- `Array.prototype.toString`: elements stringified, `null`/`undefined`
elements becoming the empty string. -/
def jsToStringArr : List JVal → List String
  | [] => []
  | .jnull :: rest => "" :: jsToStringArr rest
  | .jundef :: rest => "" :: jsToStringArr rest
  | x :: rest => jsToString x :: jsToStringArr rest

end

/-- Is the value a `jstr` equal to `s`?  Models `v === "s"` for a string
literal `s`. -/
def isStr (v : JVal) (s : String) : Bool :=
  match v with
  | .jstr t => t == s
  | _ => false

/-- Models `v === undefined`. -/
def isUndef : JVal → Bool
  | .jundef => true
  | _ => false

/-- Models `Array.isArray(v)`. -/
def isArr : JVal → Bool
  | .jarr _ => true
  | _ => false

/-- Models `typeof v === "object"` (true for `null`, objects, arrays and
dates). -/
def isObjectType : JVal → Bool
  | .jnull => true
  | .jarr _ => true
  | .jobj _ => true
  | .jdate _ => true
  | _ => false

/-- Models `v instanceof Date`. -/
def isDate : JVal → Bool
  | .jdate _ => true
  | _ => false

/-- JS strict equality `===` restricted to the values that occur in this
program: structural on primitives, `false` across distinct types and for
object-like values (reference inequality of distinct provenance). -/
def jsStrictEq : JVal → JVal → Bool
  | .jnull, .jnull => true
  | .jundef, .jundef => true
  | .jbool a, .jbool b => a == b
  | .jnum a, .jnum b => a == b
  | .jstr a, .jstr b => a == b
  | _, _ => false

/-- Own-property lookup on an object's field list.  A JS object keeps the
last assigned value for a key (`new Map(...)`-like semantics for duplicate
keys in a literal), hence the reversed search. -/
def jOwnF (fields : List (String × JVal)) (k : String) : JVal :=
  match (fields.reverse).find? (fun p => p.fst == k) with
  | some p => p.snd
  | none => (.jundef : JVal)

/-- Models `k in obj` for an object's field list (property existence). -/
def hasKey (fields : List (String × JVal)) (k : String) : Bool :=
  (fields.find? (fun p => p.fst == k)).isSome

/-- Total property read `v[k]` for a non-null receiver (primitives are
boxed and yield `undefined`; arrays and strings expose `length` and index
properties). -/
def jOwnT (v : JVal) (k : String) : JVal :=
  match v with
  | .jobj fields => jOwnF fields k
  | .jarr xs =>
      if k == "length" then .jnum xs.length
      else match k.toNat? with
        | some i => xs.getD i (.jundef : JVal)
        | none => (.jundef : JVal)
  | .jstr s =>
      if k == "length" then .jnum s.length
      else match k.toNat? with
        | some i =>
            match s.data[i]? with
            | some c => .jstr (String.mk [c])
            | none => (.jundef : JVal)
        | none => (.jundef : JVal)
  | _ => (.jundef : JVal)

/-- Property read `v[k]` that throws on `null`/`undefined` receivers. -/
def jPropE (v : JVal) (k : String) : Except String JVal :=
  match v with
  | .jnull => .error ("TypeError: cannot read properties of null (reading " ++ k ++ ")")
  | .jundef => .error ("TypeError: cannot read properties of undefined (reading " ++ k ++ ")")
  | w => .ok (jOwnT w k)

/-- Index read `v[i]` (numeric index), throwing on `null`/`undefined`. -/
def jIndexE (v : JVal) (i : Nat) : Except String JVal :=
  match v with
  | .jnull => .error "TypeError: cannot read properties of null"
  | .jundef => .error "TypeError: cannot read properties of undefined"
  | w => .ok (jOwnT w (toString i))

/-- Deduplication keeping first occurrences (accumulator of seen keys). -/
def dedupAux : List String → List String → List String
  | [], _ => []
  | k :: rest, seen =>
      if seen.contains k then dedupAux rest seen
      else k :: dedupAux rest (k :: seen)

/-- Each key once, in first-occurrence order (JS object key order). -/
def dedupKeys (xs : List String) : List String := dedupAux xs []

/-- Models `Object.keys(v)` (and the key sequence of `for (k in v)`):
own enumerable keys, each once, in insertion order. -/
def jKeys : JVal → List String
  | .jobj fields => dedupKeys (fields.map Prod.fst)
  | .jarr xs => (List.range xs.length).map toString
  | .jstr s => (List.range s.length).map toString
  | _ => []

theorem except_ok_bind {α β : Type} (a : α) (f : α → Except String β) :
    (Except.ok a : Except String α) >>= f = f a := rfl

theorem except_error_bind {α β : Type} (e : String) (f : α → Except String β) :
    (Except.error e : Except String α) >>= f = Except.error e := rfl

theorem sizeOf_jOwnF_lt {fields : List (String × JVal)} {k : String} {v : JVal}
    (h : jOwnF fields k = v) :
    v = .jundef ∨ sizeOf v < sizeOf (JVal.jobj fields) := by
  unfold jOwnF at h
  cases hf : (fields.reverse).find? (fun p => p.fst == k) with
  | none => rw [hf] at h; left; exact h.symm
  | some p =>
    rw [hf] at h
    right
    have hp : p ∈ fields.reverse := List.mem_of_find?_eq_some hf
    rw [List.mem_reverse] at hp
    have h1 : sizeOf p < sizeOf fields := List.sizeOf_lt_of_mem hp
    have h2 : sizeOf p.snd < sizeOf p := by
      cases p with
      | mk a b => simp only [Prod.mk.sizeOf_spec]; omega
    subst h
    simp only [JVal.jobj.sizeOf_spec]
    omega

theorem getD_mem_or {α : Type} (l : List α) (i : Nat) (d : α) :
    l.getD i d ∈ l ∨ l.getD i d = d := by
  induction l generalizing i with
  | nil => right; simp [List.getD]
  | cons a t ih =>
    cases i with
    | zero => left; simp [List.getD]
    | succ j =>
      have he : (a :: t).getD (j + 1) d = t.getD j d := by simp [List.getD]
      rw [he]
      rcases ih j with h | h
      · left; exact List.mem_cons_of_mem _ h
      · right; exact h

theorem sizeOf_jOwnT_jarr {v : JVal} {k : String} {xs : List JVal}
    (h : jOwnT v k = .jarr xs) :
    sizeOf (JVal.jarr xs) < sizeOf v := by
  unfold jOwnT at h
  cases v with
  | jobj fields =>
    rcases sizeOf_jOwnF_lt h with h1 | h1
    · exact absurd h1 (by simp)
    · exact h1
  | jarr ys =>
    by_cases hl : k == "length"
    · simp [hl] at h
    · cases hn : k.toNat? with
      | none => simp [hl, hn] at h
      | some i =>
        simp only [hl, Bool.false_eq_true, if_false, hn] at h
        rcases getD_mem_or ys i JVal.jundef with hm | hm
        · rw [h] at hm
          have := List.sizeOf_lt_of_mem hm
          simp only [JVal.jarr.sizeOf_spec] at *
          omega
        · rw [h] at hm; exact absurd hm (by simp)
  | jstr s =>
    by_cases hl : k == "length"
    · simp [hl] at h
    · cases hn : k.toNat? with
      | none => simp [hl, hn] at h
      | some i =>
        cases hg : s.data[i]? with
        | none => simp [hl, hn, hg] at h
        | some c => simp [hl, hn, hg] at h
  | jnull => exact absurd h (by simp)
  | jundef => exact absurd h (by simp)
  | jbool b => exact absurd h (by simp)
  | jnum n => exact absurd h (by simp)
  | jdate t => exact absurd h (by simp)

/-! Schema model, from `src/lib/types.ts` (its text closes `README.md`). -/

/-- `FieldType` from `types.ts`. -/
inductive FieldType where
  | string | number | boolean | date | enum | uuid
deriving DecidableEq

/-- `Operator` from `types.ts` (closed union of operator name strings). -/
inductive Operator where
  | eq | neq | gt | lt | gte | lte
  | isIn | between
  | contains | startsWith | endsWith
  | isNull | isNotNull
deriving DecidableEq

/-- The operator's name string, as written in the TypeScript union. -/
def Operator.name : Operator → String
  | .eq => "eq"
  | .neq => "neq"
  | .gt => "gt"
  | .lt => "lt"
  | .gte => "gte"
  | .lte => "lte"
  | .isIn => "in"
  | .between => "between"
  | .contains => "contains"
  | .startsWith => "starts_with"
  | .endsWith => "ends_with"
  | .isNull => "is_null"
  | .isNotNull => "is_not_null"

/-- `FieldSchema` from `types.ts`. -/
structure FieldSchema where
  name : String
  type : FieldType
  filterable : Bool
  allowedOperators : Option (List Operator) := none
  enumValues : Option (List String) := none
deriving DecidableEq

/-- `FilterLibrary.defaultOperators` (queryBuilder.ts lines 33-40). -/
def defaultOperators : FieldType → List Operator
  | .string => [.eq, .neq, .contains, .startsWith, .endsWith, .isIn, .isNull, .isNotNull]
  | .number => [.eq, .neq, .gt, .lt, .gte, .lte, .between, .isIn, .isNull, .isNotNull]
  | .boolean => [.eq, .neq, .isNull, .isNotNull]
  | .date => [.eq, .neq, .gt, .lt, .gte, .lte, .between, .isNull, .isNotNull]
  | .enum => [.eq, .neq, .isIn, .isNull, .isNotNull]
  | .uuid => [.eq, .neq, .isIn, .isNull, .isNotNull]

/-- `schema.allowedOperators ?? (this.defaultOperators[schema.type] || [])`. -/
def allowedOpsOf (fs : FieldSchema) : List Operator :=
  fs.allowedOperators.getD (defaultOperators fs.type)

/-- `allowedOps.includes(cond.operator)`: the dynamic operator value is
compared against the operator name strings; a non-string never matches. -/
def opIncludes (ops : List Operator) (v : JVal) : Bool :=
  match v with
  | .jstr s => ops.any (fun o => o.name == s)
  | _ => false

/-- `schemaMap.get(name)` where `schemaMap = new Map(schema.map(s => [s.name, s]))`
(a duplicate name keeps the last descriptor, as `Map` does). -/
def schemaGet (schema : List FieldSchema) (name : String) : Option FieldSchema :=
  (schema.reverse).find? (fun fs => fs.name == name)

/-- `schemaMap.get(cond.field)` for a dynamic field value: `Map.get` with a
non-string key misses every string key. -/
def schemaGetV (schema : List FieldSchema) (v : JVal) : Option FieldSchema :=
  match v with
  | .jstr s => schemaGet schema s
  | _ => none

/-- `ValidationError` (queryBuilder.ts line 26). -/
structure VErr where
  path : String
  message : String
deriving DecidableEq

/-- Hex-digit test used by the UUID pattern classes `[0-9a-fA-F]`. -/
def isHexC (c : Char) : Bool :=
  c.isDigit || ('a' ≤ c && c ≤ 'f') || ('A' ≤ c && c ≤ 'F')

/-- The UUID regular expression of `checkType` (queryBuilder.ts line 207):
`^[0-9a-fA-F-]{8}-[0-9a-fA-F]{4}-[1-5][0-9a-fA-F]{3}-[89ab][0-9a-fA-F]{3}-[0-9a-fA-F]{12}$`,
transcribed as a direct character-list check. -/
def uuidMatch (s : String) : Bool :=
  let cs := s.data
  cs.length == 36 &&
  (cs.take 8).all (fun c => isHexC c || c == '-') &&
  (cs.getD 8 ' ' == '-') &&
  ((cs.drop 9).take 4).all isHexC &&
  (cs.getD 13 ' ' == '-') &&
  (let v := cs.getD 14 ' '; '1' ≤ v && v ≤ '5') &&
  ((cs.drop 15).take 3).all isHexC &&
  (cs.getD 18 ' ' == '-') &&
  (let w := cs.getD 19 ' '; w == '8' || w == '9' || w == 'a' || w == 'b') &&
  ((cs.drop 20).take 3).all isHexC &&
  (cs.getD 23 ' ' == '-') &&
  ((cs.drop 24).take 12).all isHexC

/-- `FilterLibrary.checkType` (queryBuilder.ts lines 182-224).  `dp` models
the JS environment function `s => isNaN(Date.parse(s))`. -/
def checkType (dp : String → Bool) (value : JVal) (type : FieldType) (path : String)
    (schema : FieldSchema) : List VErr :=
  match type with
  | .string =>
      match value with
      | .jstr _ => []
      | _ => [⟨path, "must be a string"⟩]
  | .number =>
      match value with
      | .jnum _ => []
      | _ => [⟨path, "must be a number"⟩]
  | .boolean =>
      match value with
      | .jbool _ => []
      | _ => [⟨path, "must be a boolean"⟩]
  | .date =>
      if dp (jsToString value) then [⟨path, "must be a valid date"⟩] else []
  | .uuid =>
      match value with
      | .jstr s => if uuidMatch s then [] else [⟨path, "must be a valid UUID"⟩]
      | _ => [⟨path, "must be a valid UUID"⟩]
  | .enum =>
      match value with
      | .jstr s =>
          match schema.enumValues with
          | some evs =>
              if evs.contains s then []
              else [⟨path, "must be one of: " ++ String.intercalate ", " evs⟩]
          | none => []
      | _ => [⟨path, "must be a valid enum value"⟩]

/-- The per-element `value.forEach((v, i) => ...checkType...)` loops of
`validateValue` for `between` and `in`, with paths `path ++ ".value[i]"`. -/
def checkListTypes (dp : String → Bool) (xs : List JVal) (type : FieldType)
    (path : String) (schema : FieldSchema) (i : Nat) : List VErr :=
  match xs with
  | [] => []
  | v :: rest =>
      checkType dp v type (path ++ ".value[" ++ toString i ++ "]") schema ++
      checkListTypes dp rest type path schema (i + 1)

/-- `FilterLibrary.validateValue` (queryBuilder.ts lines 129-180), on the
condition object's field list. -/
def validateValue (dp : String → Bool) (fields : List (String × JVal)) (type : FieldType)
    (path : String) (schema : FieldSchema) : List VErr :=
  let operator := jOwnF fields "operator"
  let value := jOwnF fields "value"
  if isStr operator "is_null" || isStr operator "is_not_null" then
    if !(isUndef value) then
      [⟨path, "Operator \"" ++ jsToString operator ++ "\" does not take a value"⟩]
    else []
  else if isStr operator "between" then
    match value with
    | .jarr xs =>
        if xs.length != 2 then [⟨path, "\"between\" operator requires exactly 2 values"⟩]
        else checkListTypes dp xs type path schema 0
    | _ => [⟨path, "\"between\" operator requires exactly 2 values"⟩]
  else if isStr operator "in" then
    match value with
    | .jarr xs => checkListTypes dp xs type path schema 0
    | _ => [⟨path, "\"in\" operator requires an array"⟩]
  else
    if isUndef value then [⟨path, "Field requires a value"⟩]
    else checkType dp value type (path ++ ".value") schema

/-- `FilterLibrary.validateCondition` (queryBuilder.ts lines 100-127), on
the condition object's field list. -/
def validateCondition (dp : String → Bool) (schema : List FieldSchema)
    (fields : List (String × JVal)) (path : String) : List VErr :=
  let fv := jOwnF fields "field"
  match schemaGetV schema fv with
  | none => [⟨path, "Field \"" ++ jsToString fv ++ "\" is not allowed for filtering"⟩]
  | some fs =>
    if !fs.filterable then
      [⟨path, "Field \"" ++ jsToString fv ++ "\" is not filterable"⟩]
    else
      (if !(opIncludes (allowedOpsOf fs) (jOwnF fields "operator")) then
        [⟨path, "Operator \"" ++ jsToString (jOwnF fields "operator") ++
                "\" is not allowed for field \"" ++ jsToString fv ++ "\""⟩]
      else []) ++
      validateValue dp fields fs.type path fs

mutual

/-- `FilterLibrary.validateNode` (queryBuilder.ts lines 66-75) together
with `validateGroup` (lines 77-98), which is inlined here because the
mutual recursion runs through it.  The `"field" in node` dispatch throws a
`TypeError` on a non-object node; an array or date node carries no `field`,
`and` or `or` properties, so `validateGroup` returns no errors for it. -/
def validateNode (dp : String → Bool) (schema : List FieldSchema) (node : JVal)
    (path : String) : Except String (List VErr) :=
  match node with
  | .jobj fields =>
      if hasKey fields "field" then .ok (validateCondition dp schema fields path)
      else do
        let e1 ←
          match h : jOwnF fields "and" with
          | .jundef => pure ([] : List VErr)
          | .jarr xs => validateList dp schema xs (path ++ ".and[") 0
          | _ => pure [⟨path, "\"and\" must be an array"⟩]
        let e2 ←
          match h : jOwnF fields "or" with
          | .jundef => pure ([] : List VErr)
          | .jarr xs => validateList dp schema xs (path ++ ".or[") 0
          | _ => pure [⟨path, "\"or\" must be an array"⟩]
        pure (e1 ++ e2)
  | .jarr _ => .ok []
  | .jdate _ => .ok []
  | _ => .error "TypeError: cannot use in operator to search for field in a non-object"
termination_by sizeOf node
decreasing_by
  · rcases sizeOf_jOwnF_lt h with h1 | h1
    · exact absurd h1 (by simp)
    · simp only [JVal.jarr.sizeOf_spec] at h1; omega
  · rcases sizeOf_jOwnF_lt h with h1 | h1
    · exact absurd h1 (by simp)
    · simp only [JVal.jarr.sizeOf_spec] at h1; omega

/-- The `group.and.forEach((c, i) => ... validateNode(c, path.and[i]) ...)`
loop: validates each member in order, concatenating errors; a thrown
`TypeError` from a member propagates. -/
def validateList (dp : String → Bool) (schema : List FieldSchema) (xs : List JVal)
    (base : String) (i : Nat) : Except String (List VErr) :=
  match xs with
  | [] => .ok []
  | c :: rest => do
      let e ← validateNode dp schema c (base ++ toString i ++ "]")
      let es ← validateList dp schema rest base (i + 1)
      pure (e ++ es)
termination_by sizeOf xs
decreasing_by
  all_goals (simp only [List.cons.sizeOf_spec]; omega)

end

/-- `FilterLibrary.validate` (queryBuilder.ts lines 61-64). -/
def validate (dp : String → Bool) (schema : List FieldSchema) (filter : JVal) :
    Except String (List VErr) :=
  if truthy filter = false then .ok [] else validateNode dp schema filter "<root>"

/-- The `userSchema` of `src/data/userSchema.ts`. -/
def userSchema : List FieldSchema :=
  [ ⟨"id", .uuid, true, none, none⟩,
    ⟨"name", .string, true, none, none⟩,
    ⟨"age", .number, true, none, none⟩,
    ⟨"role", .enum, true, none, some ["admin", "user", "manager"]⟩,
    ⟨"isActive", .boolean, true, none, none⟩,
    ⟨"createdAt", .date, false, none, none⟩ ]

/-! The Mongo-style compiler: `toMongoQuery`, `groupToMongo`,
`conditionToMongo` (queryBuilder.ts lines 226-277). -/

/-- `FilterLibrary.conditionToMongo` (queryBuilder.ts lines 245-277), on
the condition object's field list.  The computed key `{[field]: ...}`
coerces the field value to a string. -/
def conditionToMongo (fields : List (String × JVal)) : Except String JVal :=
  let field := jOwnF fields "field"
  let operator := jOwnF fields "operator"
  let value := jOwnF fields "value"
  let key := jsToString field
  if isStr operator "eq" then .ok (.jobj [(key, value)])
  else if isStr operator "neq" then .ok (.jobj [(key, .jobj [("$ne", value)])])
  else if isStr operator "gt" then .ok (.jobj [(key, .jobj [("$gt", value)])])
  else if isStr operator "lt" then .ok (.jobj [(key, .jobj [("$lt", value)])])
  else if isStr operator "gte" then .ok (.jobj [(key, .jobj [("$gte", value)])])
  else if isStr operator "lte" then .ok (.jobj [(key, .jobj [("$lte", value)])])
  else if isStr operator "in" then .ok (.jobj [(key, .jobj [("$in", value)])])
  else if isStr operator "between" then do
    let v0 ← jIndexE value 0
    let v1 ← jIndexE value 1
    .ok (.jobj [(key, .jobj [("$gte", v0), ("$lte", v1)])])
  else if isStr operator "contains" then
    .ok (.jobj [(key, .jobj [("$regex", value), ("$options", .jstr "i")])])
  else if isStr operator "starts_with" then
    .ok (.jobj [(key, .jobj [("$regex", .jstr ("^" ++ jsToString value)), ("$options", .jstr "i")])])
  else if isStr operator "ends_with" then
    .ok (.jobj [(key, .jobj [("$regex", .jstr (jsToString value ++ "$")), ("$options", .jstr "i")])])
  else if isStr operator "is_null" then .ok (.jobj [(key, .jnull)])
  else if isStr operator "is_not_null" then .ok (.jobj [(key, .jobj [("$ne", .jnull)])])
  else .error ("Unsupported operator: " ++ jsToString operator)

mutual

/-- `FilterLibrary.groupToMongo` (queryBuilder.ts lines 234-243) fused with
the member dispatch `"field" in c ? conditionToMongo(c) : groupToMongo(c)`:
an object with a `field` key compiles as a condition, any other object-like
value as a group (`$and` from a truthy `and`, `$or` from a truthy `or`,
both keys when both are set), and a primitive member throws from
`"field" in c`.  A truthy non-array `and`/`or` throws from `.map`. -/
def nodeToMongo (node : JVal) : Except String JVal :=
  match node with
  | .jobj fields =>
      if hasKey fields "field" then conditionToMongo fields
      else do
        let o1 ←
          match h : jOwnF fields "and" with
          | .jarr xs => do
              let subs ← mongoList xs
              pure [("$and", JVal.jarr subs)]
          | v =>
              if truthy v then .error "TypeError: group.and.map is not a function"
              else pure ([] : List (String × JVal))
        let o2 ←
          match h : jOwnF fields "or" with
          | .jarr xs => do
              let subs ← mongoList xs
              pure [("$or", JVal.jarr subs)]
          | v =>
              if truthy v then .error "TypeError: group.or.map is not a function"
              else pure ([] : List (String × JVal))
        pure (.jobj (o1 ++ o2))
  | .jarr _ => .ok (.jobj [])
  | .jdate _ => .ok (.jobj [])
  | _ => .error "TypeError: cannot use in operator to search for field in a non-object"
termination_by sizeOf node
decreasing_by
  · rcases sizeOf_jOwnF_lt h with h1 | h1
    · exact absurd h1 (by simp)
    · simp only [JVal.jarr.sizeOf_spec] at h1; omega
  · rcases sizeOf_jOwnF_lt h with h1 | h1
    · exact absurd h1 (by simp)
    · simp only [JVal.jarr.sizeOf_spec] at h1; omega

/-- The `group.and.map(...)` / `group.or.map(...)` loop of `groupToMongo`. -/
def mongoList (xs : List JVal) : Except String (List JVal) :=
  match xs with
  | [] => .ok []
  | c :: rest => do
      let q ← nodeToMongo c
      let qs ← mongoList rest
      pure (q :: qs)
termination_by sizeOf xs
decreasing_by
  all_goals (simp only [List.cons.sizeOf_spec]; omega)

end

/-- `FilterLibrary.toMongoQuery` (queryBuilder.ts lines 226-233). -/
def toMongoQuery (filter : JVal) : Except String JVal :=
  if truthy filter = false then .ok (.jobj []) else nodeToMongo filter

/-! The SQL compiler: `toSqlWhere`, `groupToSql`, `conditionToSql`
(queryBuilder.ts lines 280-342). -/

/-- `FilterLibrary.conditionToSql` (queryBuilder.ts lines 307-342).  The
result's `params` is kept as a raw `JVal` because the `between` case
returns `params: value` unchecked (an array only for validated input). -/
def conditionToSql (fields : List (String × JVal)) : Except String (String × JVal) :=
  let field := jOwnF fields "field"
  let operator := jOwnF fields "operator"
  let value := jOwnF fields "value"
  let name := jsToString field
  if isStr operator "eq" then .ok (name ++ " = ?", .jarr [value])
  else if isStr operator "neq" then .ok (name ++ " <> ?", .jarr [value])
  else if isStr operator "gt" then .ok (name ++ " > ?", .jarr [value])
  else if isStr operator "lt" then .ok (name ++ " < ?", .jarr [value])
  else if isStr operator "gte" then .ok (name ++ " >= ?", .jarr [value])
  else if isStr operator "lte" then .ok (name ++ " <= ?", .jarr [value])
  else if isStr operator "in" then
    match value with
    | .jarr xs =>
        .ok (name ++ " IN (" ++ joinSep ", " (xs.map (fun _ => "?")) ++ ")",
             .jarr xs)
    | _ => .error "TypeError: value.map is not a function"
  else if isStr operator "between" then .ok (name ++ " BETWEEN ? AND ?", value)
  else if isStr operator "contains" then
    .ok (name ++ " LIKE ?", .jarr [.jstr ("%" ++ jsToString value ++ "%")])
  else if isStr operator "starts_with" then
    .ok (name ++ " LIKE ?", .jarr [.jstr (jsToString value ++ "%")])
  else if isStr operator "ends_with" then
    .ok (name ++ " LIKE ?", .jarr [.jstr ("%" ++ jsToString value)])
  else if isStr operator "is_null" then .ok (name ++ " IS NULL", .jarr [])
  else if isStr operator "is_not_null" then .ok (name ++ " IS NOT NULL", .jarr [])
  else .error ("Unsupported operator: " ++ jsToString operator)

/-- `sub.flatMap((s) => s.params)`: one-level flattening, a non-array
`params` contributing itself as a single element. -/
def flatParams : List JVal → List JVal
  | [] => []
  | .jarr ys :: rest => ys ++ flatParams rest
  | v :: rest => v :: flatParams rest

mutual

/-- `FilterLibrary.groupToSql` (queryBuilder.ts lines 290-305) fused with
the member dispatch `"field" in c ? conditionToSql(c) : groupToSql(c)`.
The `and` members are joined with `" AND "`, the `or` members with
`" OR "`, the group's clauses joined with `" AND "` and parenthesized;
both param lists are appended in that order. -/
def nodeToSql (node : JVal) : Except String (String × JVal) :=
  match node with
  | .jobj fields =>
      if hasKey fields "field" then conditionToSql fields
      else do
        let p1 ←
          match h : jOwnF fields "and" with
          | .jarr xs => do
              let subs ← sqlList xs
              pure (some (joinSep " AND " (subs.map Prod.fst),
                          flatParams (subs.map Prod.snd)))
          | v =>
              if truthy v then .error "TypeError: group.and.map is not a function"
              else pure (none : Option (String × List JVal))
        let p2 ←
          match h : jOwnF fields "or" with
          | .jarr xs => do
              let subs ← sqlList xs
              pure (some (joinSep " OR " (subs.map Prod.fst),
                          flatParams (subs.map Prod.snd)))
          | v =>
              if truthy v then .error "TypeError: group.or.map is not a function"
              else pure (none : Option (String × List JVal))
        let clauses := (match p1 with | some c => [c.fst] | none => []) ++
                       (match p2 with | some c => [c.fst] | none => [])
        let params := (match p1 with | some c => c.snd | none => []) ++
                      (match p2 with | some c => c.snd | none => [])
        pure ("(" ++ joinSep " AND " clauses ++ ")", .jarr params)
  | .jarr _ => .ok ("()", .jarr [])
  | .jdate _ => .ok ("()", .jarr [])
  | _ => .error "TypeError: cannot use in operator to search for field in a non-object"
termination_by sizeOf node
decreasing_by
  · rcases sizeOf_jOwnF_lt h with h1 | h1
    · exact absurd h1 (by simp)
    · simp only [JVal.jarr.sizeOf_spec] at h1; omega
  · rcases sizeOf_jOwnF_lt h with h1 | h1
    · exact absurd h1 (by simp)
    · simp only [JVal.jarr.sizeOf_spec] at h1; omega

/-- The `group.and.map(...)` / `group.or.map(...)` loop of `groupToSql`. -/
def sqlList (xs : List JVal) : Except String (List (String × JVal)) :=
  match xs with
  | [] => .ok []
  | c :: rest => do
      let r ← nodeToSql c
      let rs ← sqlList rest
      pure (r :: rs)
termination_by sizeOf xs
decreasing_by
  all_goals (simp only [List.cons.sizeOf_spec]; omega)

end

/-- `FilterLibrary.toSqlWhere` (queryBuilder.ts lines 280-288). -/
def toSqlWhere (filter : JVal) : Except String (String × JVal) :=
  if truthy filter = false then .ok ("1=1", .jarr []) else nodeToSql filter

/-! The in-memory evaluator: `UserRepository.matchesQuery`
(userRepository.ts lines 40-87). -/

/-- JS `ToNumber` on the values this program compares (`none` = NaN;
arrays coerce through their string form, objects to NaN). -/
def jsToNumber? : JVal → Option Int
  | .jnull => some 0
  | .jundef => none
  | .jbool b => some (if b then 1 else 0)
  | .jnum n => some n
  | .jstr s => if s.trim = "" then some 0 else s.trim.toInt?
  | .jarr xs =>
      let s := jsToString (.jarr xs)
      if s.trim = "" then some 0 else s.trim.toInt?
  | .jobj _ => none
  | .jdate t => some t

/-- JS abstract relational comparison `a < b`: lexicographic for two
strings, else numeric after `ToNumber` (false when either side is NaN). -/
def jsLtB : JVal → JVal → Bool
  | .jstr a, .jstr b => a < b
  | a, b =>
      match jsToNumber? a, jsToNumber? b with
      | some x, some y => x < y
      | _, _ => false

/-- Whether `a < b` is a well-defined (non-NaN) comparison. -/
def jsCmpDef : JVal → JVal → Bool
  | .jstr _, .jstr _ => true
  | a, b => (jsToNumber? a).isSome && (jsToNumber? b).isSome

/-- JS `a > b`. -/
def jsGtB (a b : JVal) : Bool := jsLtB b a

/-- JS `a >= b` (`!(a < b)` unless NaN). -/
def jsGeB (a b : JVal) : Bool := jsCmpDef a b && !(jsLtB a b)

/-- JS `a <= b` (`!(b < a)` unless NaN). -/
def jsLeB (a b : JVal) : Bool := jsCmpDef a b && !(jsGtB a b)

/-- `String.prototype.includes` (substring test), for `$in` applied to a
string-valued operand. -/
def jsStrIncludes (s t : String) : Bool := decide (t.data <:+: s.data)

/-- The inner `for (const op in condition)` loop of `matchesQuery`
(userRepository.ts lines 56-83): each recognized operator key must hold,
the first failing one returns `false`; an unrecognized key hits the
`default` case and returns `false`; `$in` on a value without `.includes`
throws.  `rex pat flags subject` models `new RegExp(pat, flags).test(subject)`. -/
def condOpsLoop (rex : String → String → String → Bool) (value : JVal) (cond : JVal) :
    List String → Except String Bool
  | [] => .ok true
  | op :: rest =>
    if op == "$ne" then
      if jsStrictEq value (jOwnT cond op) then .ok false
      else condOpsLoop rex value cond rest
    else if op == "$gt" then
      if !(jsGtB value (jOwnT cond op)) then .ok false
      else condOpsLoop rex value cond rest
    else if op == "$lt" then
      if !(jsLtB value (jOwnT cond op)) then .ok false
      else condOpsLoop rex value cond rest
    else if op == "$gte" then
      if !(jsGeB value (jOwnT cond op)) then .ok false
      else condOpsLoop rex value cond rest
    else if op == "$lte" then
      if !(jsLeB value (jOwnT cond op)) then .ok false
      else condOpsLoop rex value cond rest
    else if op == "$in" then
      match jOwnT cond op with
      | .jarr xs =>
          if xs.any (fun x => jsStrictEq x value) then condOpsLoop rex value cond rest
          else .ok false
      | .jstr s =>
          if jsStrIncludes s (jsToString value) then condOpsLoop rex value cond rest
          else .ok false
      | _ => .error "TypeError: includes is not a function"
    else if op == "$regex" then
      let pat := jsToString (jOwnT cond op)
      let optV := jOwnT cond "$options"
      let flags := if truthy optV then jsToString optV else ""
      if rex pat flags (jsToString value) then condOpsLoop rex value cond rest
      else .ok false
    else .ok false

/-- The outer `for (const field of Object.keys(query))` loop of
`matchesQuery` (userRepository.ts lines 50-85): a non-object (or `Date`)
condition requires strict equality with the record's field, an operator
object is checked by `condOpsLoop`; `user[field]` throws when the record
is `null`/`undefined`. -/
def fieldsLoop (rex : String → String → String → Bool) (user query : JVal) :
    List String → Except String Bool
  | [] => .ok true
  | f :: rest => do
      let cond := jOwnT query f
      let value ← jPropE user f
      if !(isObjectType cond) || isDate cond then
        if !(jsStrictEq value cond) then .ok false
        else fieldsLoop rex user query rest
      else do
        let b ← condOpsLoop rex value cond (jKeys cond)
        if b then fieldsLoop rex user query rest else .ok false

mutual

/-- `UserRepository.matchesQuery` (userRepository.ts lines 40-87).  A falsy
or key-less query matches everything; a truthy `$and` returns the
conjunction of its sub-queries (ignoring everything else); otherwise a
truthy `$or` returns the disjunction of its sub-queries; otherwise each
field key is checked. -/
def matchesQuery (rex : String → String → String → Bool) (user query : JVal) :
    Except String Bool :=
  if truthy query = false || (jKeys query).length == 0 then .ok true
  else if truthy (jOwnT query "$and") then
    match h : jOwnT query "$and" with
    | .jarr xs => everyQ rex user xs
    | _ => .error "TypeError: query.$and.every is not a function"
  else if truthy (jOwnT query "$or") then
    match h : jOwnT query "$or" with
    | .jarr xs => someQ rex user xs
    | _ => .error "TypeError: query.$or.some is not a function"
  else fieldsLoop rex user query (jKeys query)
termination_by sizeOf query
decreasing_by
  · have := sizeOf_jOwnT_jarr h
    simp only [JVal.jarr.sizeOf_spec] at this; omega
  · have := sizeOf_jOwnT_jarr h
    simp only [JVal.jarr.sizeOf_spec] at this; omega

/-- `query.$and.every((q) => this.matchesQuery(user, q))`: short-circuit
conjunction. -/
def everyQ (rex : String → String → String → Bool) (user : JVal) :
    List JVal → Except String Bool
  | [] => .ok true
  | q :: rest => do
      let b ← matchesQuery rex user q
      if b then everyQ rex user rest else .ok false
termination_by xs => sizeOf xs
decreasing_by
  all_goals (simp only [List.cons.sizeOf_spec]; omega)

/-- `query.$or.some((q) => this.matchesQuery(user, q))`: short-circuit
disjunction. -/
def someQ (rex : String → String → String → Bool) (user : JVal) :
    List JVal → Except String Bool
  | [] => .ok false
  | q :: rest => do
      let b ← matchesQuery rex user q
      if b then .ok true else someQ rex user rest
termination_by xs => sizeOf xs
decreasing_by
  all_goals (simp only [List.cons.sizeOf_spec]; omega)

end

/-- `Map.get` on the builder registry (`registerBuilder` inserts with
`Map.set`, so a re-registered name keeps the last builder). -/
def mapGet {β : Type} (reg : List (String × β)) (name : String) : Option β :=
  ((reg.reverse).find? (fun p => p.fst == name)).map Prod.snd

/-- `FilterLibrary.buildQuery` (queryBuilder.ts lines 52-58): an
unregistered name throws; a registered builder's `build` runs on the
filter (its own exceptions propagating). -/
def buildQuery {β : Type} (reg : List (String × (JVal → Except String β)))
    (name : String) (filter : JVal) : Except String β :=
  match mapGet reg name with
  | none => .error ("Query builder \"" ++ name ++ "\" is not registered")
  | some b => b filter

/-! Claim theorems. -/

/-- C7: an absent filter (`null` or `undefined`) validates with an empty
error list, compiles to `{}` under the Mongo compiler, the evaluator
accepts every record against that compiled query, and the SQL compiler
returns exactly `{sql: "1=1", params: []}`. -/
theorem claim_C7_absent_filter :
    (∀ (dp : String → Bool) (schema : List FieldSchema),
        validate dp schema .jnull = .ok [] ∧ validate dp schema .jundef = .ok []) ∧
    toMongoQuery .jnull = .ok (.jobj []) ∧
    toMongoQuery .jundef = .ok (.jobj []) ∧
    (∀ (rex : String → String → String → Bool) (user : JVal),
        matchesQuery rex user (.jobj []) = .ok true) ∧
    toSqlWhere .jnull = .ok ("1=1", .jarr []) ∧
    toSqlWhere .jundef = .ok ("1=1", .jarr []) := by
  refine ⟨fun dp schema => ⟨?_, ?_⟩, ?_, ?_, fun rex user => ?_, ?_, ?_⟩ <;>
    simp [validate, toMongoQuery, toSqlWhere, matchesQuery, truthy, jKeys,
      dedupKeys, dedupAux]

/-- C8: under `userSchema`, the condition
`{field:"age", operator:"between", value:[20,30]}` validates with no
errors and compiles to exactly `{sql:"age BETWEEN ? AND ?", params:[20,30]}`. -/
theorem claim_C8_between_validates_and_compiles :
    ∀ dp : String → Bool,
      validate dp userSchema
        (.jobj [("field", .jstr "age"), ("operator", .jstr "between"),
                ("value", .jarr [.jnum 20, .jnum 30])]) = .ok [] ∧
      toSqlWhere
        (.jobj [("field", .jstr "age"), ("operator", .jstr "between"),
                ("value", .jarr [.jnum 20, .jnum 30])]) =
        .ok ("age BETWEEN ? AND ?", .jarr [.jnum 20, .jnum 30]) := by
  intro dp
  constructor
  · simp [validate, validateNode, validateCondition, validateValue, checkType,
      checkListTypes, truthy, hasKey, jOwnF, schemaGetV, schemaGet, userSchema,
      opIncludes, allowedOpsOf, defaultOperators, isStr, isUndef, Operator.name,
      List.find?]
  · simp [toSqlWhere, nodeToSql, conditionToSql, truthy, hasKey, jOwnF, isStr,
      jsToString, List.find?]

/-- C9: `buildQuery` on a name missing from the registry throws an error
naming the unregistered builder and yields no compiled output; on a
registered name it returns exactly that builder's output on the filter. -/
theorem claim_C9_registry_dispatch {β : Type}
    (reg : List (String × (JVal → Except String β))) (name : String) (filter : JVal) :
    (mapGet reg name = none →
      buildQuery reg name filter =
        .error ("Query builder \"" ++ name ++ "\" is not registered")) ∧
    (∀ b, mapGet reg name = some b → buildQuery reg name filter = b filter) := by
  constructor
  · intro h; simp [buildQuery, h]
  · intro b h; simp [buildQuery, h]

/-- Witness for C9 at a registry holding only a mongo builder: the name
`"sql"` is unregistered and fails with the naming error, the name
`"mongo"` dispatches to the registered builder. -/
theorem claim_C9_registry_dispatch_witness :
    buildQuery [("mongo", fun f => toMongoQuery f)] "sql" .jnull =
      .error "Query builder \"sql\" is not registered" ∧
    buildQuery [("mongo", fun f => toMongoQuery f)] "mongo" .jnull = toMongoQuery .jnull := by
  constructor
  · exact (claim_C9_registry_dispatch _ "sql" .jnull).1 (by simp [mapGet])
  · exact (claim_C9_registry_dispatch _ "mongo" .jnull).2 _ (by simp [mapGet])

/-- C3 counterexample: `is_null` on `age` compiles to `{age: null}` as the
claim says, but the evaluator accepts a record whose `age` is `5` (not
`null`): `typeof null === "object"` sends the `null` condition into the
operator-object branch, and `for (const op in null)` checks nothing. -/
theorem claim_C3_is_null_counterexample :
    conditionToMongo [("field", .jstr "age"), ("operator", .jstr "is_null")] =
      .ok (.jobj [("age", .jnull)]) ∧
    matchesQuery (fun _ _ _ => false) (.jobj [("age", .jnum 5)]) (.jobj [("age", .jnull)]) =
      .ok true := by
  constructor
  · simp [conditionToMongo, jOwnF, isStr, jsToString, List.find?]
  · simp [matchesQuery, fieldsLoop, condOpsLoop, truthy, jKeys, jOwnT, jOwnF,
      jPropE, isObjectType, isDate, List.find?, dedupKeys, dedupAux,
      except_ok_bind, except_error_bind]

/-- C3 amended: compiling `{field, operator: is_null}` yields
`{field: null}`, and the evaluator accepts EVERY record (object) against
that query regardless of the field's value: the `null` condition value has
`typeof "object"`, so the strict-equality branch is skipped and the
`for...in` loop over `null` performs no checks. -/
theorem claim_C3_is_null_amended
    (rex : String → String → String → Bool) (field : String)
    (user : List (String × JVal)) :
    conditionToMongo [("field", .jstr field), ("operator", .jstr "is_null")] =
      .ok (.jobj [(field, .jnull)]) ∧
    matchesQuery rex (.jobj user) (.jobj [(field, .jnull)]) = .ok true := by
  constructor
  · simp [conditionToMongo, jOwnF, isStr, jsToString, List.find?]
  · rw [matchesQuery]
    have hkeys : jKeys (.jobj [(field, .jnull)]) = [field] := by
      simp [jKeys, dedupKeys, dedupAux]
    have hand : truthy (jOwnT (.jobj [(field, .jnull)]) "$and") = false := by
      simp only [jOwnT, jOwnF, List.reverse_cons, List.reverse_nil, List.nil_append,
        List.find?]
      cases h : (field == "$and") <;> simp [truthy]
    have hor : truthy (jOwnT (.jobj [(field, .jnull)]) "$or") = false := by
      simp only [jOwnT, jOwnF, List.reverse_cons, List.reverse_nil, List.nil_append,
        List.find?]
      cases h : (field == "$or") <;> simp [truthy]
    rw [hkeys, hand, hor]
    simp only [truthy, Bool.false_eq_true, false_or, List.length_cons,
      List.length_nil, if_false]
    simp [fieldsLoop, condOpsLoop, jOwnT, jOwnF, jPropE, isObjectType, isDate,
      jKeys, List.find?, except_ok_bind, except_error_bind]

/-- C5 counterexample: an unrecognized operator key (`$foo`) in a compiled
condition object makes the evaluator return the ordinary boolean `false`
(the `default` switch case), not a propagated fatal error. -/
theorem claim_C5_unknown_op_counterexample :
    matchesQuery (fun _ _ _ => false) (.jobj [("age", .jnum 1)])
      (.jobj [("age", .jobj [("$foo", .jnum 1)])]) = .ok false := by
  simp [matchesQuery, fieldsLoop, condOpsLoop, truthy, jKeys, jOwnT, jOwnF,
    jPropE, isObjectType, isDate, List.find?, dedupKeys, dedupAux,
    except_ok_bind, except_error_bind]

/-- C5 amended: an operator key outside the seven recognized switch cases
(`$ne,$gt,$lt,$gte,$lte,$in,$regex`) — including `$options` itself, which
is not a switch case — makes the evaluator return `false` for the record
(an ordinary non-match), with no error signalled. -/
theorem claim_C5_unknown_op_amended
    (rex : String → String → String → Bool) (user : List (String × JVal))
    (field opKey : String) (w : JVal)
    (hf1 : field ≠ "$and") (hf2 : field ≠ "$or")
    (hop : opKey ∉ (["$ne", "$gt", "$lt", "$gte", "$lte", "$in", "$regex"] : List String)) :
    matchesQuery rex (.jobj user) (.jobj [(field, .jobj [(opKey, w)])]) = .ok false := by
  simp only [List.mem_cons, List.mem_singleton, not_or] at hop
  obtain ⟨h1, h2, h3, h4, h5, h6, h7, -⟩ := hop
  rw [matchesQuery]
  have hkeys : jKeys (.jobj [(field, .jobj [(opKey, w)])]) = [field] := by
    simp [jKeys, dedupKeys, dedupAux]
  have hband : (field == "$and") = false := by simp [hf1]
  have hbor : (field == "$or") = false := by simp [hf2]
  have hand : truthy (jOwnT (.jobj [(field, .jobj [(opKey, w)])]) "$and") = false := by
    simp [jOwnT, jOwnF, List.find?, hband, truthy]
  have hor : truthy (jOwnT (.jobj [(field, .jobj [(opKey, w)])]) "$or") = false := by
    simp [jOwnT, jOwnF, List.find?, hbor, truthy]
  rw [hkeys, hand, hor]
  simp only [truthy, Bool.false_eq_true, false_or, List.length_cons,
    List.length_nil, if_false]
  simp [fieldsLoop, condOpsLoop, jOwnT, jOwnF, jPropE, isObjectType, isDate,
    jKeys, List.find?, dedupKeys, dedupAux, except_ok_bind, except_error_bind,
    h1, h2, h3, h4, h5, h6, h7]

/-- Witness for the C5 amendment, at the `$options` key itself: a compiled
`contains` condition object reduced to its `$options` entry evaluates to
`false`, not an error. -/
theorem claim_C5_unknown_op_amended_witness :
    matchesQuery (fun _ _ _ => true) (.jobj [("name", .jstr "Alice")])
      (.jobj [("name", .jobj [("$options", .jstr "i")])]) = .ok false := by
  exact claim_C5_unknown_op_amended _ _ "name" "$options" _
    (by decide) (by decide) (by decide)

theorem dedupKeys_ne_nil {a : String} {l : List String} :
    dedupKeys (a :: l) ≠ [] := by
  simp [dedupKeys, dedupAux]

/-- C2 counterexample: the Group
`{and:[{age eq 35}], or:[{name eq "Zed"}]}` compiles to an object holding
both `$and` and `$or`; the evaluator accepts Alice (`age` 35, `name`
"Alice") although no `$or` sub-query matches her, because a truthy `$and`
returns immediately and `$or` is never consulted. -/
theorem claim_C2_and_or_counterexample :
    toMongoQuery
      (.jobj [("and", .jarr [.jobj [("field", .jstr "age"), ("operator", .jstr "eq"),
                                    ("value", .jnum 35)]]),
              ("or", .jarr [.jobj [("field", .jstr "name"), ("operator", .jstr "eq"),
                                   ("value", .jstr "Zed")]])]) =
      .ok (.jobj [("$and", .jarr [.jobj [("age", .jnum 35)]]),
                  ("$or", .jarr [.jobj [("name", .jstr "Zed")]])]) ∧
    matchesQuery (fun _ _ _ => false) (.jobj [("age", .jnum 35), ("name", .jstr "Alice")])
      (.jobj [("$and", .jarr [.jobj [("age", .jnum 35)]]),
              ("$or", .jarr [.jobj [("name", .jstr "Zed")]])]) = .ok true ∧
    matchesQuery (fun _ _ _ => false) (.jobj [("age", .jnum 35), ("name", .jstr "Alice")])
      (.jobj [("name", .jstr "Zed")]) = .ok false := by
  refine ⟨?_, ?_, ?_⟩
  · simp [toMongoQuery, nodeToMongo, mongoList, conditionToMongo, truthy, hasKey,
      jOwnF, isStr, jsToString, List.find?, except_ok_bind, except_error_bind]
  · simp [matchesQuery, everyQ, someQ, fieldsLoop, condOpsLoop, truthy, jKeys,
      dedupKeys, dedupAux, jOwnT, jOwnF, jPropE, isObjectType, isDate, jsStrictEq,
      List.find?, except_ok_bind, except_error_bind]
  · simp [matchesQuery, fieldsLoop, condOpsLoop, truthy, jKeys, dedupKeys,
      dedupAux, jOwnT, jOwnF, jPropE, isObjectType, isDate, jsStrictEq,
      List.find?, except_ok_bind, except_error_bind]

/-- C2 amended: in the evaluator, a truthy `$and` array decides the result
alone — the query evaluates to the conjunction of the `$and` sub-queries
and any `$or` key is ignored; the `$or` disjunction is consulted only when
`$and` is absent or falsy. -/
theorem claim_C2_and_or_amended
    (rex : String → String → String → Bool) (user : JVal)
    (q : List (String × JVal)) (xs : List JVal) :
    (jOwnF q "$and" = .jarr xs →
      matchesQuery rex user (.jobj q) = everyQ rex user xs) ∧
    (truthy (jOwnF q "$and") = false → jOwnF q "$or" = .jarr xs →
      matchesQuery rex user (.jobj q) = someQ rex user xs) := by
  constructor
  · intro h
    have hq : q ≠ [] := by
      intro he; subst he; simp [jOwnF] at h
    have hkeys : (jKeys (.jobj q)).length ≠ 0 := by
      cases q with
      | nil => exact absurd rfl hq
      | cons p rest =>
          simp only [jKeys, List.map_cons]
          intro hlen
          exact dedupKeys_ne_nil (List.eq_nil_of_length_eq_zero hlen)
    have hT : jOwnT (.jobj q) "$and" = .jarr xs := by simpa [jOwnT] using h
    rw [matchesQuery, hT]
    simp [truthy, hkeys]
  · intro hfalsy h
    have hq : q ≠ [] := by
      intro he; subst he; simp [jOwnF] at h
    have hkeys : (jKeys (.jobj q)).length ≠ 0 := by
      cases q with
      | nil => exact absurd rfl hq
      | cons p rest =>
          simp only [jKeys, List.map_cons]
          intro hlen
          exact dedupKeys_ne_nil (List.eq_nil_of_length_eq_zero hlen)
    have hT : jOwnT (.jobj q) "$or" = .jarr xs := by simpa [jOwnT] using h
    have hTand : truthy (jOwnT (.jobj q) "$and") = false := by simpa [jOwnT] using hfalsy
    rw [matchesQuery, hT]
    simp only [truthy] at hTand
    simp [truthy, hkeys, hTand]

/-- Witness for the C2 amendment: a query with both keys evaluates as the
`$and` conjunction, and a query with only `$or` evaluates as the `$or`
disjunction. -/
theorem claim_C2_and_or_amended_witness :
    matchesQuery (fun _ _ _ => false) (.jobj [])
      (.jobj [("$and", .jarr []), ("$or", .jarr [.jobj [("x", .jnum 1)]])]) =
      everyQ (fun _ _ _ => false) (.jobj []) [] ∧
    matchesQuery (fun _ _ _ => false) (.jobj [("x", .jnum 1)])
      (.jobj [("$or", .jarr [.jobj [("x", .jnum 1)]])]) =
      someQ (fun _ _ _ => false) (.jobj [("x", .jnum 1)]) [.jobj [("x", .jnum 1)]] := by
  constructor
  · exact (claim_C2_and_or_amended _ _ _ _).1 (by simp [jOwnF, List.find?])
  · exact (claim_C2_and_or_amended _ _ _ _).2 (by simp [jOwnF, List.find?, truthy])
      (by simp [jOwnF, List.find?])

/-- C6: condition validation order.  An unknown field yields exactly the
one "not allowed" error and stops; a non-filterable field yields exactly
the one "not filterable" error and stops; a disallowed operator on a
filterable field prepends its error to the value-shape errors, which are
still computed — concretely, `{age contains "x"}` under `userSchema`
reports both the operator error and the "must be a number" value error. -/
theorem claim_C6_condition_validation_order
    (dp : String → Bool) (schema : List FieldSchema)
    (fields : List (String × JVal)) (path : String) :
    (schemaGetV schema (jOwnF fields "field") = none →
      validateCondition dp schema fields path =
        [⟨path, "Field \"" ++ jsToString (jOwnF fields "field") ++
                "\" is not allowed for filtering"⟩]) ∧
    (∀ fs, schemaGetV schema (jOwnF fields "field") = some fs →
      fs.filterable = false →
      validateCondition dp schema fields path =
        [⟨path, "Field \"" ++ jsToString (jOwnF fields "field") ++
                "\" is not filterable"⟩]) ∧
    (∀ fs, schemaGetV schema (jOwnF fields "field") = some fs →
      fs.filterable = true →
      opIncludes (allowedOpsOf fs) (jOwnF fields "operator") = false →
      validateCondition dp schema fields path =
        ⟨path, "Operator \"" ++ jsToString (jOwnF fields "operator") ++
               "\" is not allowed for field \"" ++
               jsToString (jOwnF fields "field") ++ "\""⟩ ::
        validateValue dp fields fs.type path fs) ∧
    (validate dp userSchema
        (.jobj [("field", .jstr "age"), ("operator", .jstr "contains"),
                ("value", .jstr "x")]) =
      .ok [⟨"<root>", "Operator \"contains\" is not allowed for field \"age\""⟩,
           ⟨"<root>.value", "must be a number"⟩]) := by
  refine ⟨fun h => ?_, fun fs h hf => ?_, fun fs h hf hop => ?_, ?_⟩
  · simp [validateCondition, h]
  · simp [validateCondition, h, hf]
  · simp [validateCondition, h, hf, hop]
  · simp [validate, validateNode, validateCondition, validateValue, checkType,
      truthy, hasKey, jOwnF, schemaGetV, schemaGet, userSchema, opIncludes,
      allowedOpsOf, defaultOperators, isStr, isUndef, Operator.name, List.find?,
      jsToString]

/-- Witness for C6: the three control-flow branches at concrete conditions
under `userSchema` — unknown field `password`, non-filterable `createdAt`,
and the disallowed operator `contains` on `age`. -/
theorem claim_C6_condition_validation_order_witness :
    validateCondition (fun _ => false) userSchema
        [("field", .jstr "password"), ("operator", .jstr "eq"), ("value", .jstr "s")]
        "<root>" =
      [⟨"<root>", "Field \"password\" is not allowed for filtering"⟩] ∧
    validateCondition (fun _ => false) userSchema
        [("field", .jstr "createdAt"), ("operator", .jstr "eq"),
         ("value", .jstr "2023-01-01")] "<root>" =
      [⟨"<root>", "Field \"createdAt\" is not filterable"⟩] ∧
    validateCondition (fun _ => false) userSchema
        [("field", .jstr "age"), ("operator", .jstr "contains"), ("value", .jstr "x")]
        "<root>" =
      ⟨"<root>", "Operator \"contains\" is not allowed for field \"age\""⟩ ::
      validateValue (fun _ => false)
        [("field", .jstr "age"), ("operator", .jstr "contains"), ("value", .jstr "x")]
        FieldType.number "<root>" ⟨"age", .number, true, none, none⟩ := by
  refine ⟨?_, ?_, ?_⟩
  · have := (claim_C6_condition_validation_order (fun _ => false) userSchema
      [("field", .jstr "password"), ("operator", .jstr "eq"), ("value", .jstr "s")]
      "<root>").1
    simp [jOwnF, List.find?, jsToString] at this
    exact this (by simp [schemaGetV, schemaGet, userSchema, List.find?])
  · have := (claim_C6_condition_validation_order (fun _ => false) userSchema
      [("field", .jstr "createdAt"), ("operator", .jstr "eq"),
       ("value", .jstr "2023-01-01")] "<root>").2.1
    simp [jOwnF, List.find?, jsToString] at this
    exact this ⟨"createdAt", .date, false, none, none⟩
      (by simp [schemaGetV, schemaGet, userSchema, List.find?]) rfl
  · have := (claim_C6_condition_validation_order (fun _ => false) userSchema
      [("field", .jstr "age"), ("operator", .jstr "contains"), ("value", .jstr "x")]
      "<root>").2.2.1
    simp [jOwnF, List.find?, jsToString] at this
    exact this ⟨"age", .number, true, none, none⟩
      (by simp [schemaGetV, schemaGet, userSchema, List.find?]) rfl
      (by decide)

/-! C4 development: well-formedness under which `validate` cannot throw. -/

theorem jval_sizeOf_pos (v : JVal) : 0 < sizeOf v := by
  cases v <;> simp_arith

theorem sizeOf_mem_jarr {c : JVal} {xs : List JVal} (h : c ∈ xs) :
    sizeOf c < sizeOf (JVal.jarr xs) := by
  have := List.sizeOf_lt_of_mem h
  simp only [JVal.jarr.sizeOf_spec]
  omega

theorem sizeOf_mem_of_jOwnF {fields : List (String × JVal)} {k : String}
    {xs : List JVal} {c : JVal}
    (h : jOwnF fields k = .jarr xs) (hc : c ∈ xs) :
    sizeOf c < sizeOf (JVal.jobj fields) := by
  rcases sizeOf_jOwnF_lt h with h1 | h1
  · exact absurd h1 (by simp)
  · have h2 := sizeOf_mem_jarr hc
    omega

theorem except_isOk_iff {α : Type} (e : Except String α) :
    e.isOk = true ↔ ∃ v, e = .ok v := by
  cases e <;> simp [Except.isOk, Except.toBool]

theorem bind2_isOk {a b : Except String (List VErr)}
    (ha : a.isOk = true) (hb : b.isOk = true) :
    (a >>= fun e1 => b >>= fun e2 => pure (e1 ++ e2)).isOk = true := by
  rw [except_isOk_iff] at ha hb
  obtain ⟨v1, h1⟩ := ha
  obtain ⟨v2, h2⟩ := hb
  subst h1
  subst h2
  rfl

mutual

/-- The inputs on which the `"field" in node` dispatch of `validateNode`
cannot throw anywhere in the tree: the node is object-like and, when it is
an object without a `field` key, every member of an `and`/`or`-keyed ARRAY
value is recursively such a node (a non-array `and`/`or` is reported as an
error without recursing, so it needs no constraint). -/
def nodeOk : JVal → Bool
  | .jobj fields => hasKey fields "field" || pairsOk fields
  | .jarr _ => true
  | .jdate _ => true
  | _ => false

/-- Members of `and`/`or`-keyed array values are recursively well-formed. -/
def pairsOk : List (String × JVal) → Bool
  | [] => true
  | (k, .jarr xs) :: rest =>
      (if k == "and" || k == "or" then listOk xs else true) && pairsOk rest
  | _ :: rest => pairsOk rest

/-- All members of a group member list are recursively well-formed. -/
def listOk : List JVal → Bool
  | [] => true
  | c :: rest => nodeOk c && listOk rest

end

theorem pairsOk_mem {fields : List (String × JVal)} (hp : pairsOk fields = true)
    {k : String} {ys : List JVal}
    (hm : (k, JVal.jarr ys) ∈ fields) (hk : (k == "and" || k == "or") = true) :
    listOk ys = true := by
  induction fields with
  | nil => simp at hm
  | cons p rest ih =>
      obtain ⟨k2, v2⟩ := p
      rcases List.mem_cons.mp hm with heq | hmem
      · injection heq with h1 h2
        subst h1
        subst h2
        rw [pairsOk] at hp
        simp only [hk, if_true, Bool.and_eq_true] at hp
        exact hp.1
      · cases v2 with
        | jarr zs =>
            rw [pairsOk] at hp
            simp only [Bool.and_eq_true] at hp
            exact ih hp.2 hmem
        | jnull => simp only [pairsOk] at hp; exact ih hp hmem
        | jundef => simp only [pairsOk] at hp; exact ih hp hmem
        | jbool b => simp only [pairsOk] at hp; exact ih hp hmem
        | jnum n => simp only [pairsOk] at hp; exact ih hp hmem
        | jstr s => simp only [pairsOk] at hp; exact ih hp hmem
        | jobj fs => simp only [pairsOk] at hp; exact ih hp hmem
        | jdate t => simp only [pairsOk] at hp; exact ih hp hmem

theorem pairsOk_jOwnF {fields : List (String × JVal)} {k : String} {xs : List JVal}
    (hp : pairsOk fields = true) (h : jOwnF fields k = .jarr xs)
    (hk : (k == "and" || k == "or") = true) :
    listOk xs = true := by
  unfold jOwnF at h
  cases hf : (fields.reverse).find? (fun p => p.fst == k) with
  | none => rw [hf] at h; exact absurd h (by simp)
  | some p =>
      rw [hf] at h
      have hpred := List.find?_some hf
      have hmem : p ∈ fields := List.mem_reverse.mp (List.mem_of_find?_eq_some hf)
      obtain ⟨k2, v2⟩ := p
      simp only at hpred h
      have hk2 : k2 = k := eq_of_beq hpred
      subst hk2
      subst h
      exact pairsOk_mem hp hmem hk

theorem validateList_isOk_of_listOk (dp : String → Bool) (schema : List FieldSchema)
    {n : Nat}
    (ih : ∀ c, sizeOf c ≤ n → nodeOk c = true →
      ∀ p, (validateNode dp schema c p).isOk = true) :
    ∀ (xs : List JVal) (base : String) (i : Nat),
      (∀ c ∈ xs, sizeOf c ≤ n) → listOk xs = true →
      (validateList dp schema xs base i).isOk = true := by
  intro xs
  induction xs with
  | nil =>
      intro base i _ _
      rw [validateList]
      rfl
  | cons c rest ihl =>
      intro base i hsz hok
      rw [listOk] at hok
      simp only [Bool.and_eq_true] at hok
      obtain ⟨hok1, hok2⟩ := hok
      rw [validateList]
      have h1 := ih c (hsz c (by simp)) hok1 (base ++ toString i ++ "]")
      rw [except_isOk_iff] at h1
      obtain ⟨v1, hv1⟩ := h1
      have h2 := ihl base (i + 1) (fun d hd => hsz d (by simp [hd])) hok2
      rw [except_isOk_iff] at h2
      obtain ⟨v2, hv2⟩ := h2
      rw [hv1, hv2]
      rfl

theorem validateNode_isOk_of_nodeOk (dp : String → Bool) (schema : List FieldSchema) :
    ∀ (n : Nat) (node : JVal), sizeOf node ≤ n → nodeOk node = true →
      ∀ path, (validateNode dp schema node path).isOk = true := by
  intro n
  induction n with
  | zero =>
      intro node hsz
      have := jval_sizeOf_pos node
      omega
  | succ n ih =>
      intro node hsz hok path
      cases node with
      | jobj fields =>
          rw [validateNode]
          by_cases hk : hasKey fields "field"
          · simp [hk, Except.isOk, Except.toBool]
          · rw [nodeOk] at hok
            simp only [hk, Bool.false_eq_true, false_or] at hok
            simp only [hk, Bool.false_eq_true, if_false]
            have listB : ∀ (key : String), (key == "and" || key == "or") = true →
                ∀ xs, jOwnF fields key = .jarr xs → ∀ base,
                (validateList dp schema xs base 0).isOk = true := by
              intro key hkey xs hx base
              exact validateList_isOk_of_listOk dp schema ih _ _ _
                (fun c hc => by
                  have h1 := sizeOf_mem_of_jOwnF hx hc
                  omega)
                (pairsOk_jOwnF hok hx hkey)
            split
            · split
              · exact bind2_isOk rfl rfl
              · next xs2 heqB =>
                  exact bind2_isOk rfl (listB "or" (by decide) xs2 heqB _)
              · exact bind2_isOk rfl rfl
            · next xs1 heqA =>
                split
                · exact bind2_isOk (listB "and" (by decide) xs1 heqA _) rfl
                · next xs2 heqB =>
                    exact bind2_isOk (listB "and" (by decide) xs1 heqA _)
                      (listB "or" (by decide) xs2 heqB _)
                · exact bind2_isOk (listB "and" (by decide) xs1 heqA _) rfl
            · split
              · exact bind2_isOk rfl rfl
              · next xs2 heqB =>
                  exact bind2_isOk rfl (listB "or" (by decide) xs2 heqB _)
              · exact bind2_isOk rfl rfl
      | jarr xs => rw [validateNode]; rfl
      | jdate t => rw [validateNode]; rfl
      | jnull => simp [nodeOk] at hok
      | jundef => simp [nodeOk] at hok
      | jbool b => simp [nodeOk] at hok
      | jnum m => simp [nodeOk] at hok
      | jstr s => simp [nodeOk] at hok

/-- C4 counterexample: `validate({and:[null]})` throws — the member `null`
reaches `"field" in node`, a `TypeError` — so `validate` does not return
an error list for every input. -/
theorem claim_C4_validate_throws_counterexample :
    (validate (fun _ => false) userSchema (.jobj [("and", .jarr [.jnull])])).isOk
      = false := by
  simp [validate, validateNode, validateList, truthy, hasKey, jOwnF, List.find?,
    Except.isOk, Except.toBool, Except.bind, Bind.bind]

/-- C4 amended: `validate` returns a (possibly empty) error list — it
cannot throw — for every falsy input and every well-formed tree
(`nodeOk`): group members inside `and`/`or` arrays must be object-like
values.  A non-object member such as `null` instead throws a `TypeError`
from `"field" in node`. -/
theorem claim_C4_validate_amended (dp : String → Bool) (schema : List FieldSchema)
    (f : JVal) (h : truthy f = false ∨ nodeOk f = true) :
    (validate dp schema f).isOk = true := by
  rcases h with h | h
  · simp [validate, h, Except.isOk, Except.toBool]
  · rw [validate]
    by_cases ht : truthy f = false
    · simp [ht, Except.isOk, Except.toBool]
    · rw [if_neg ht]
      exact validateNode_isOk_of_nodeOk dp schema (sizeOf f) f le_rfl h "<root>"

/-- Witness for the C4 amendment: a well-formed group with one condition
member validates without throwing. -/
theorem claim_C4_validate_amended_witness :
    (validate (fun _ => false) userSchema
      (.jobj [("and", .jarr [.jobj [("field", .jstr "age"), ("operator", .jstr "gt"),
                                    ("value", .jnum 1)]])])).isOk = true := by
  apply claim_C4_validate_amended
  right
  simp [nodeOk, pairsOk, listOk, hasKey, jOwnF, List.find?]

/-! C10 development. -/

theorem schemaGet_mem {schema : List FieldSchema} {name : String} {fs : FieldSchema}
    (h : schemaGet schema name = some fs) : fs ∈ schema ∧ fs.name = name := by
  unfold schemaGet at h
  constructor
  · exact List.mem_reverse.mp (List.mem_of_find?_eq_some h)
  · have hp := List.find?_some h
    exact eq_of_beq hp

theorem userSchema_field_cases {field : String} {fs : FieldSchema}
    (h : schemaGet userSchema field = some fs) :
    field = "id" ∨ field = "name" ∨ field = "age" ∨ field = "role" ∨
    field = "isActive" ∨ field = "createdAt" := by
  obtain ⟨hm, hn⟩ := schemaGet_mem h
  subst hn
  simp only [userSchema, List.mem_cons, List.not_mem_nil, or_false] at hm
  rcases hm with h | h | h | h | h | h <;> subst h <;> simp

/-- C10: under `userSchema`, on every filterable field whose allowed
operator set admits `in`, the condition `{field, operator:"in", value:[]}`
validates with no errors, compiles to `field IN ()` with empty params, and
the compiled Mongo query `{field: {$in: []}}` matches no record. -/
theorem claim_C10_empty_in_operator
    (dp : String → Bool) (rex : String → String → String → Bool)
    (field : String) (fs : FieldSchema) (user : List (String × JVal))
    (h : schemaGet userSchema field = some fs)
    (hf : fs.filterable = true)
    (hop : opIncludes (allowedOpsOf fs) (.jstr "in") = true) :
    validate dp userSchema
      (.jobj [("field", .jstr field), ("operator", .jstr "in"), ("value", .jarr [])]) =
      .ok [] ∧
    toSqlWhere
      (.jobj [("field", .jstr field), ("operator", .jstr "in"), ("value", .jarr [])]) =
      .ok (field ++ " IN ()", .jarr []) ∧
    toMongoQuery
      (.jobj [("field", .jstr field), ("operator", .jstr "in"), ("value", .jarr [])]) =
      .ok (.jobj [(field, .jobj [("$in", .jarr [])])]) ∧
    matchesQuery rex (.jobj user) (.jobj [(field, .jobj [("$in", .jarr [])])]) =
      .ok false := by
  have hnames := userSchema_field_cases h
  have hfa : field ≠ "$and" := by
    rcases hnames with h1 | h1 | h1 | h1 | h1 | h1 <;> subst h1 <;> decide
  have hfo : field ≠ "$or" := by
    rcases hnames with h1 | h1 | h1 | h1 | h1 | h1 <;> subst h1 <;> decide
  refine ⟨?_, ?_, ?_, ?_⟩
  · simp [validate, validateNode, validateCondition, validateValue, checkListTypes,
      truthy, hasKey, jOwnF, List.find?, schemaGetV, h, hf, hop, isStr, isUndef,
      jsToString]
  · have hs : field ++ " IN (" ++ ")" = field ++ " IN ()" := by
      apply String.ext
      simp only [String.data_append, List.append_assoc]
      exact congrArg (field.data ++ ·) (by decide)
    simp only [toSqlWhere, truthy]
    rw [nodeToSql]
    simp [conditionToSql, hasKey, jOwnF, List.find?, isStr, jsToString, hs, joinSep]
  · simp only [toMongoQuery, truthy]
    rw [nodeToMongo]
    simp [conditionToMongo, hasKey, jOwnF, List.find?, isStr, jsToString]
  · have hband : (field == "$and") = false := by simp [hfa]
    have hbor : (field == "$or") = false := by simp [hfo]
    rw [matchesQuery]
    have hkeys : jKeys (.jobj [(field, .jobj [("$in", .jarr [])])]) = [field] := by
      simp [jKeys, dedupKeys, dedupAux]
    have hand : truthy (jOwnT (.jobj [(field, .jobj [("$in", .jarr [])])]) "$and") = false := by
      simp [jOwnT, jOwnF, List.find?, hband, truthy]
    have hor : truthy (jOwnT (.jobj [(field, .jobj [("$in", .jarr [])])]) "$or") = false := by
      simp [jOwnT, jOwnF, List.find?, hbor, truthy]
    rw [hkeys, hand, hor]
    simp only [truthy, Bool.false_eq_true, false_or, List.length_cons,
      List.length_nil, if_false]
    simp [fieldsLoop, condOpsLoop, jOwnT, jOwnF, jPropE, isObjectType, isDate,
      jKeys, dedupKeys, dedupAux, List.find?, except_ok_bind, except_error_bind]

/-- Witness for C10 at the enum field `role` (whose default operator set
admits `in`) and a concrete record. -/
theorem claim_C10_empty_in_operator_witness :
    validate (fun _ => false) userSchema
      (.jobj [("field", .jstr "role"), ("operator", .jstr "in"), ("value", .jarr [])]) =
      .ok [] ∧
    toSqlWhere
      (.jobj [("field", .jstr "role"), ("operator", .jstr "in"), ("value", .jarr [])]) =
      .ok ("role" ++ " IN ()", .jarr []) ∧
    toMongoQuery
      (.jobj [("field", .jstr "role"), ("operator", .jstr "in"), ("value", .jarr [])]) =
      .ok (.jobj [("role", .jobj [("$in", .jarr [])])]) ∧
    matchesQuery (fun _ _ _ => false) (.jobj [("role", .jstr "admin")])
      (.jobj [("role", .jobj [("$in", .jarr [])])]) = .ok false := by
  exact claim_C10_empty_in_operator (fun _ => false) (fun _ _ _ => false) "role"
    ⟨"role", .enum, true, none, some ["admin", "user", "manager"]⟩ _
    (by simp [schemaGet, userSchema, List.find?]) rfl (by decide)

/-! C1 development: the positional-parameter correspondence.  `substA`
substitutes the params into the `?` placeholders of a SQL text from left
to right (rendering each consumed param with `jsToString`) and returns the
leftover params; the inline mirror compiles the same filter with each
parameter written directly in place of its placeholder.  The claim's
order invariant is: substitution consumes exactly the params list and
produces exactly the inline compilation. -/

/-- Left-to-right substitution of rendered params for `?` placeholders;
`none` when the params run out at a placeholder. -/
def substA : List Char → List JVal → Option (List Char × List JVal)
  | [], ps => some ([], ps)
  | c :: cs, ps =>
      if c = '?' then
        match ps with
        | [] => none
        | p :: ps2 =>
            (substA cs ps2).map (fun rq => ((jsToString p).data ++ rq.1, rq.2))
      else
        (substA cs ps).map (fun rq => (c :: rq.1, rq.2))

/-- `substA` relates a SQL text with params to its inline form, consuming
the params exactly. -/
def RelL (cs : List Char) (ps : List JVal) (ts : List Char) : Prop :=
  substA cs ps = some (ts, [])

/-- The order-specification mirror of `conditionToSql`: identical SQL text
with each parameter's rendering written in place of its placeholder. -/
def inlineCondSql (fields : List (String × JVal)) : Except String String :=
  let field := jOwnF fields "field"
  let operator := jOwnF fields "operator"
  let value := jOwnF fields "value"
  let name := jsToString field
  if isStr operator "eq" then .ok (name ++ " = " ++ jsToString value)
  else if isStr operator "neq" then .ok (name ++ " <> " ++ jsToString value)
  else if isStr operator "gt" then .ok (name ++ " > " ++ jsToString value)
  else if isStr operator "lt" then .ok (name ++ " < " ++ jsToString value)
  else if isStr operator "gte" then .ok (name ++ " >= " ++ jsToString value)
  else if isStr operator "lte" then .ok (name ++ " <= " ++ jsToString value)
  else if isStr operator "in" then
    match value with
    | .jarr xs => .ok (name ++ " IN (" ++ joinSep ", " (xs.map jsToString) ++ ")")
    | _ => .error "TypeError: value.map is not a function"
  else if isStr operator "between" then
    match value with
    | .jarr [v0, v1] =>
        .ok (name ++ " BETWEEN " ++ jsToString v0 ++ " AND " ++ jsToString v1)
    | _ => .error "between value is not a two-element array"
  else if isStr operator "contains" then
    .ok (name ++ " LIKE " ++ ("%" ++ jsToString value ++ "%"))
  else if isStr operator "starts_with" then
    .ok (name ++ " LIKE " ++ (jsToString value ++ "%"))
  else if isStr operator "ends_with" then
    .ok (name ++ " LIKE " ++ ("%" ++ jsToString value))
  else if isStr operator "is_null" then .ok (name ++ " IS NULL")
  else if isStr operator "is_not_null" then .ok (name ++ " IS NOT NULL")
  else .error ("Unsupported operator: " ++ jsToString operator)

mutual

/-- The order-specification mirror of `nodeToSql`: group structure and
joins identical, parameters inlined. -/
def inlineNodeSql (node : JVal) : Except String String :=
  match node with
  | .jobj fields =>
      if hasKey fields "field" then inlineCondSql fields
      else do
        let p1 ←
          match h : jOwnF fields "and" with
          | .jarr xs => do
              let ts ← inlineSqlList xs
              pure (some (joinSep " AND " ts))
          | v =>
              if truthy v then .error "TypeError: group.and.map is not a function"
              else pure (none : Option String)
        let p2 ←
          match h : jOwnF fields "or" with
          | .jarr xs => do
              let ts ← inlineSqlList xs
              pure (some (joinSep " OR " ts))
          | v =>
              if truthy v then .error "TypeError: group.or.map is not a function"
              else pure (none : Option String)
        let clauses := (match p1 with | some c => [c] | none => []) ++
                       (match p2 with | some c => [c] | none => [])
        pure ("(" ++ joinSep " AND " clauses ++ ")")
  | .jarr _ => .ok "()"
  | .jdate _ => .ok "()"
  | _ => .error "TypeError: cannot use in operator to search for field in a non-object"
termination_by sizeOf node
decreasing_by
  · rcases sizeOf_jOwnF_lt h with h1 | h1
    · exact absurd h1 (by simp)
    · simp only [JVal.jarr.sizeOf_spec] at h1; omega
  · rcases sizeOf_jOwnF_lt h with h1 | h1
    · exact absurd h1 (by simp)
    · simp only [JVal.jarr.sizeOf_spec] at h1; omega

/-- Member list of the inline mirror. -/
def inlineSqlList (xs : List JVal) : Except String (List String) :=
  match xs with
  | [] => .ok []
  | c :: rest => do
      let r ← inlineNodeSql c
      let rs ← inlineSqlList rest
      pure (r :: rs)
termination_by sizeOf xs
decreasing_by
  all_goals (simp only [List.cons.sizeOf_spec]; omega)

end

/-- Top level of the inline mirror. -/
def inlineSqlWhere (filter : JVal) : Except String String :=
  if truthy filter = false then .ok "1=1" else inlineNodeSql filter

theorem substA_nilL (ps : List JVal) : substA [] ps = some ([], ps) := rfl

theorem substA_consL (c : Char) (cs : List Char) (ps : List JVal) :
    substA (c :: cs) ps =
      if c = '?' then
        match ps with
        | [] => none
        | p :: ps2 =>
            (substA cs ps2).map (fun rq => ((jsToString p).data ++ rq.1, rq.2))
      else
        (substA cs ps).map (fun rq => (c :: rq.1, rq.2)) := rfl

theorem substA_q_nil (cs : List Char) : substA ('?' :: cs) [] = none := rfl

theorem substA_cons_q (cs : List Char) (p : JVal) (ps2 : List JVal) :
    substA ('?' :: cs) (p :: ps2) =
      (substA cs ps2).map (fun rq => ((jsToString p).data ++ rq.1, rq.2)) := rfl

theorem substA_cons_nq {c : Char} (hc : c ≠ '?') (cs : List Char) (ps : List JVal) :
    substA (c :: cs) ps = (substA cs ps).map (fun rq => (c :: rq.1, rq.2)) := by
  rw [substA_consL, if_neg hc]

theorem substA_noQ {cs : List Char} (h : ('?' : Char) ∉ cs) (ps : List JVal) :
    substA cs ps = some (cs, ps) := by
  induction cs with
  | nil => rfl
  | cons c cs ih =>
      have hc : c ≠ '?' := fun he => h (he ▸ List.mem_cons_self c cs)
      have hcs : ('?' : Char) ∉ cs := fun hm => h (List.mem_cons_of_mem c hm)
      rw [substA_cons_nq hc, ih hcs]
      rfl

theorem substA_append {a : List Char} :
    ∀ {ps ra ps1}, substA a ps = some (ra, ps1) →
    ∀ {b rb ps2}, substA b ps1 = some (rb, ps2) →
      substA (a ++ b) ps = some (ra ++ rb, ps2) := by
  induction a with
  | nil =>
      intro ps ra ps1 ha b rb ps2 hb
      rw [substA_nilL] at ha
      injection ha with ha
      injection ha with h1 h2
      subst h1
      subst h2
      simpa using hb
  | cons c cs ih =>
      intro ps ra ps1 ha b rb ps2 hb
      by_cases hc : c = '?'
      · subst hc
        cases ps with
        | nil => rw [substA_q_nil] at ha; exact absurd ha (by simp)
        | cons p ps' =>
            rw [substA_cons_q] at ha
            cases hrec : substA cs ps' with
            | none => rw [hrec] at ha; exact absurd ha (by simp)
            | some rq =>
                obtain ⟨r, q⟩ := rq
                rw [hrec] at ha
                simp only [Option.map_some', Option.some.injEq, Prod.mk.injEq] at ha
                obtain ⟨h1, h2⟩ := ha
                subst h2
                rw [List.cons_append, substA_cons_q, ih hrec hb]
                simp only [Option.map_some', Option.some.injEq, Prod.mk.injEq]
                exact ⟨by rw [← h1, List.append_assoc], trivial⟩
      · rw [substA_cons_nq hc] at ha
        cases hrec : substA cs ps with
        | none => rw [hrec] at ha; exact absurd ha (by simp)
        | some rq =>
            obtain ⟨r, q⟩ := rq
            rw [hrec] at ha
            simp only [Option.map_some', Option.some.injEq, Prod.mk.injEq] at ha
            obtain ⟨h1, h2⟩ := ha
            subst h2
            rw [List.cons_append, substA_cons_nq hc, ih hrec hb]
            simp only [Option.map_some', Option.some.injEq, Prod.mk.injEq]
            exact ⟨by rw [← h1, List.cons_append], trivial⟩

theorem substA_extend {a : List Char} :
    ∀ {ps ra ps1 extra}, substA a ps = some (ra, ps1) →
      substA a (ps ++ extra) = some (ra, ps1 ++ extra) := by
  induction a with
  | nil =>
      intro ps ra ps1 extra h
      rw [substA_nilL] at h
      injection h with h
      injection h with h1 h2
      subst h1
      subst h2
      rfl
  | cons c cs ih =>
      intro ps ra ps1 extra h
      by_cases hc : c = '?'
      · subst hc
        cases ps with
        | nil => rw [substA_q_nil] at h; exact absurd h (by simp)
        | cons p ps' =>
            rw [substA_cons_q] at h
            cases hrec : substA cs ps' with
            | none => rw [hrec] at h; exact absurd h (by simp)
            | some rq =>
                obtain ⟨r, q⟩ := rq
                rw [hrec] at h
                simp only [Option.map_some', Option.some.injEq, Prod.mk.injEq] at h
                obtain ⟨h1, h2⟩ := h
                subst h1
                subst h2
                rw [List.cons_append, substA_cons_q, ih hrec]
                rfl
      · rw [substA_cons_nq hc] at h
        cases hrec : substA cs ps with
        | none => rw [hrec] at h; exact absurd h (by simp)
        | some rq =>
            obtain ⟨r, q⟩ := rq
            rw [hrec] at h
            simp only [Option.map_some', Option.some.injEq, Prod.mk.injEq] at h
            obtain ⟨h1, h2⟩ := h
            subst h1
            subst h2
            rw [substA_cons_nq hc, ih hrec]
            rfl

theorem relL_append {a b ta tb : List Char} {pa pb : List JVal}
    (ha : RelL a pa ta) (hb : RelL b pb tb) :
    RelL (a ++ b) (pa ++ pb) (ta ++ tb) := by
  unfold RelL at *
  exact substA_append (substA_extend ha) hb

theorem substA_count {cs : List Char} :
    ∀ {ps : List JVal} {r}, substA cs ps = some (r, []) →
      cs.count '?' = ps.length := by
  induction cs with
  | nil =>
      intro ps r h
      rw [substA_nilL] at h
      injection h with h
      injection h with h1 h2
      subst h2
      simp
  | cons c cs ih =>
      intro ps r h
      by_cases hc : c = '?'
      · subst hc
        cases ps with
        | nil => rw [substA_q_nil] at h; exact absurd h (by simp)
        | cons p ps' =>
            rw [substA_cons_q] at h
            cases hrec : substA cs ps' with
            | none => rw [hrec] at h; exact absurd h (by simp)
            | some rq =>
                obtain ⟨r2, q⟩ := rq
                rw [hrec] at h
                simp only [Option.map_some', Option.some.injEq, Prod.mk.injEq] at h
                obtain ⟨h1, h2⟩ := h
                subst h2
                have hcount := ih hrec
                simp [List.count_cons, hcount]
      · rw [substA_cons_nq hc] at h
        cases hrec : substA cs ps with
        | none => rw [hrec] at h; exact absurd h (by simp)
        | some rq =>
            obtain ⟨r2, q⟩ := rq
            rw [hrec] at h
            simp only [Option.map_some', Option.some.injEq, Prod.mk.injEq] at h
            obtain ⟨h1, h2⟩ := h
            subst h2
            have hcount := ih hrec
            have hbc : ('?' == c) = false := by
              cases hbe : ('?' == c)
              · rfl
              · exact absurd (eq_of_beq hbe).symm hc
            simp [List.count_cons, hbc, hcount, hc]

theorem relL_noQ {cs : List Char} (h : ('?' : Char) ∉ cs) : RelL cs [] cs :=
  substA_noQ h []

theorem relL_one (pre : List Char) (hpre : ('?' : Char) ∉ pre) (v : JVal)
    (post : List Char) (hpost : ('?' : Char) ∉ post) :
    RelL (pre ++ '?' :: post) [v] (pre ++ ((jsToString v).data ++ post)) := by
  unfold RelL
  have h1 : substA pre [v] = some (pre, [v]) := substA_noQ hpre [v]
  have h2 : substA ('?' :: post) [v] = some ((jsToString v).data ++ post, []) := by
    rw [substA_cons_q, substA_noQ hpost]
    rfl
  have h3 := substA_append h1 h2
  simpa [List.append_assoc] using h3

theorem validateCondition_nil_elim {dp : String → Bool} {schema : List FieldSchema}
    {fields : List (String × JVal)} {path : String}
    (h : validateCondition dp schema fields path = []) :
    ∃ fs, schemaGetV schema (jOwnF fields "field") = some fs ∧
      fs.filterable = true ∧
      opIncludes (allowedOpsOf fs) (jOwnF fields "operator") = true ∧
      validateValue dp fields fs.type path fs = [] := by
  simp only [validateCondition] at h
  cases hg : schemaGetV schema (jOwnF fields "field") with
  | none => rw [hg] at h; exact absurd h (by simp)
  | some fs =>
      rw [hg] at h
      by_cases hf : fs.filterable
      · by_cases hop : opIncludes (allowedOpsOf fs) (jOwnF fields "operator")
        · refine ⟨fs, rfl, hf, hop, ?_⟩
          simpa [hf, hop] using h
        · simp [hf, eq_false_of_ne_true hop] at h
      · simp [eq_false_of_ne_true hf] at h

theorem opIncludes_true_elim {ops : List Operator} {v : JVal}
    (h : opIncludes ops v = true) : ∃ o : Operator, v = .jstr o.name := by
  cases v <;> simp only [opIncludes] at h
  case jstr s =>
    rw [List.any_eq_true] at h
    obtain ⟨o, _, hn⟩ := h
    exact ⟨o, by rw [eq_of_beq hn]⟩
  all_goals exact absurd h (by simp)

theorem validateValue_between_shape {dp : String → Bool}
    {fields : List (String × JVal)} {ty : FieldType} {path : String} {fs : FieldSchema}
    (hoeq : jOwnF fields "operator" = .jstr "between")
    (hvv : validateValue dp fields ty path fs = []) :
    ∃ v0 v1, jOwnF fields "value" = .jarr [v0, v1] := by
  simp only [validateValue] at hvv
  rw [hoeq] at hvv
  cases hV : jOwnF fields "value" with
  | jarr xs =>
      rw [hV] at hvv
      cases xs with
      | nil => simp [isStr, isUndef] at hvv
      | cons a t =>
          cases t with
          | nil => simp [isStr, isUndef] at hvv
          | cons b t2 =>
              cases t2 with
              | nil => exact ⟨a, b, rfl⟩
              | cons c t3 => simp [isStr, isUndef, List.length_cons] at hvv
  | jnull => rw [hV] at hvv; simp [isStr, isUndef] at hvv
  | jundef => rw [hV] at hvv; simp [isStr, isUndef] at hvv
  | jbool b => rw [hV] at hvv; simp [isStr, isUndef] at hvv
  | jnum n => rw [hV] at hvv; simp [isStr, isUndef] at hvv
  | jstr s => rw [hV] at hvv; simp [isStr, isUndef] at hvv
  | jobj flds => rw [hV] at hvv; simp [isStr, isUndef] at hvv
  | jdate t => rw [hV] at hvv; simp [isStr, isUndef] at hvv

theorem validateValue_in_shape {dp : String → Bool}
    {fields : List (String × JVal)} {ty : FieldType} {path : String} {fs : FieldSchema}
    (hoeq : jOwnF fields "operator" = .jstr "in")
    (hvv : validateValue dp fields ty path fs = []) :
    ∃ xs, jOwnF fields "value" = .jarr xs := by
  simp only [validateValue] at hvv
  rw [hoeq] at hvv
  cases hV : jOwnF fields "value" with
  | jarr xs => exact ⟨xs, rfl⟩
  | jnull => rw [hV] at hvv; simp [isStr, isUndef] at hvv
  | jundef => rw [hV] at hvv; simp [isStr, isUndef] at hvv
  | jbool b => rw [hV] at hvv; simp [isStr, isUndef] at hvv
  | jnum n => rw [hV] at hvv; simp [isStr, isUndef] at hvv
  | jstr s => rw [hV] at hvv; simp [isStr, isUndef] at hvv
  | jobj flds => rw [hV] at hvv; simp [isStr, isUndef] at hvv
  | jdate t => rw [hV] at hvv; simp [isStr, isUndef] at hvv

theorem joinSep_nil (sep : String) : joinSep sep [] = "" := rfl

theorem joinSep_one (sep a : String) : joinSep sep [a] = a := rfl

theorem joinSep_cons2 (sep a b : String) (rest : List String) :
    joinSep sep (a :: b :: rest) = a ++ sep ++ joinSep sep (b :: rest) := rfl

theorem relL_join_qs : ∀ xs : List JVal,
    RelL (joinSep ", " (xs.map (fun _ => "?"))).data xs
         (joinSep ", " (xs.map jsToString)).data := by
  intro xs
  induction xs with
  | nil =>
      unfold RelL
      exact substA_nilL []
  | cons v rest ih =>
      cases rest with
      | nil =>
          unfold RelL
          show substA ['?'] [v] = some ((jsToString v).data, [])
          rw [substA_cons_q, substA_nilL]
          simp
      | cons w rest2 =>
          have hx := relL_append
            (relL_one [] (by decide) v (',' :: [' ']) (by decide)) ih
          unfold RelL at hx ⊢
          simp only [List.map_cons, joinSep_cons2, String.data_append,
            List.append_assoc, List.cons_append, List.singleton_append,
            List.nil_append, List.append_nil] at hx ⊢
          exact hx

/-- The per-condition correspondence: a condition that validates cleanly
compiles to a SQL fragment whose params list substitutes into its
placeholders, left to right, giving exactly the inline compilation. -/
theorem condSql_rel {dp : String → Bool} {schema : List FieldSchema}
    (hs : ∀ fs ∈ schema, ('?' : Char) ∉ fs.name.data)
    {fields : List (String × JVal)} {path : String}
    (hv : validateCondition dp schema fields path = []) :
    ∃ s ps t, conditionToSql fields = .ok (s, .jarr ps) ∧
      inlineCondSql fields = .ok t ∧ RelL s.data ps t.data := by
  obtain ⟨fs, hg, hf, hop, hvv⟩ := validateCondition_nil_elim hv
  obtain ⟨o, hoeq⟩ := opIncludes_true_elim hop
  have hfield : ∃ fname, jOwnF fields "field" = .jstr fname ∧
      ('?' : Char) ∉ fname.data := by
    cases hF : jOwnF fields "field" with
    | jstr fname =>
        refine ⟨fname, rfl, ?_⟩
        rw [hF] at hg
        simp only [schemaGetV] at hg
        obtain ⟨hmem, hname⟩ := schemaGet_mem hg
        have h2 := hs fs hmem
        rw [hname] at h2
        exact h2
    | jnull => rw [hF] at hg; simp [schemaGetV] at hg
    | jundef => rw [hF] at hg; simp [schemaGetV] at hg
    | jbool b => rw [hF] at hg; simp [schemaGetV] at hg
    | jnum n => rw [hF] at hg; simp [schemaGetV] at hg
    | jarr xs => rw [hF] at hg; simp [schemaGetV] at hg
    | jobj flds => rw [hF] at hg; simp [schemaGetV] at hg
    | jdate t => rw [hF] at hg; simp [schemaGetV] at hg
  obtain ⟨fname, hF, hnoq⟩ := hfield
  cases o with
  | eq =>
      refine ⟨fname ++ " = ?", [jOwnF fields "value"],
        fname ++ " = " ++ jsToString (jOwnF fields "value"), ?_, ?_, ?_⟩
      · simp [conditionToSql, hoeq, hF, Operator.name, isStr, jsToString]
      · simp [inlineCondSql, hoeq, hF, Operator.name, isStr, jsToString]
      · have hx := relL_append (relL_noQ hnoq)
          (relL_one ([' '] ++ ['='] ++ [' ']) (by decide) (jOwnF fields "value")
            [] (by decide))
        unfold RelL at hx ⊢
        simp only [List.append_nil] at hx
        simp only [String.data_append, List.append_assoc]
        exact hx
  | neq =>
      refine ⟨fname ++ " <> ?", [jOwnF fields "value"],
        fname ++ " <> " ++ jsToString (jOwnF fields "value"), ?_, ?_, ?_⟩
      · simp [conditionToSql, hoeq, hF, Operator.name, isStr, jsToString]
      · simp [inlineCondSql, hoeq, hF, Operator.name, isStr, jsToString]
      · have hx := relL_append (relL_noQ hnoq)
          (relL_one ([' '] ++ ['<'] ++ ['>'] ++ [' ']) (by decide)
            (jOwnF fields "value") [] (by decide))
        unfold RelL at hx ⊢
        simp only [List.append_nil] at hx
        simp only [String.data_append, List.append_assoc]
        exact hx
  | gt =>
      refine ⟨fname ++ " > ?", [jOwnF fields "value"],
        fname ++ " > " ++ jsToString (jOwnF fields "value"), ?_, ?_, ?_⟩
      · simp [conditionToSql, hoeq, hF, Operator.name, isStr, jsToString]
      · simp [inlineCondSql, hoeq, hF, Operator.name, isStr, jsToString]
      · have hx := relL_append (relL_noQ hnoq)
          (relL_one ([' '] ++ ['>'] ++ [' ']) (by decide) (jOwnF fields "value")
            [] (by decide))
        unfold RelL at hx ⊢
        simp only [List.append_nil] at hx
        simp only [String.data_append, List.append_assoc]
        exact hx
  | lt =>
      refine ⟨fname ++ " < ?", [jOwnF fields "value"],
        fname ++ " < " ++ jsToString (jOwnF fields "value"), ?_, ?_, ?_⟩
      · simp [conditionToSql, hoeq, hF, Operator.name, isStr, jsToString]
      · simp [inlineCondSql, hoeq, hF, Operator.name, isStr, jsToString]
      · have hx := relL_append (relL_noQ hnoq)
          (relL_one ([' '] ++ ['<'] ++ [' ']) (by decide) (jOwnF fields "value")
            [] (by decide))
        unfold RelL at hx ⊢
        simp only [List.append_nil] at hx
        simp only [String.data_append, List.append_assoc]
        exact hx
  | gte =>
      refine ⟨fname ++ " >= ?", [jOwnF fields "value"],
        fname ++ " >= " ++ jsToString (jOwnF fields "value"), ?_, ?_, ?_⟩
      · simp [conditionToSql, hoeq, hF, Operator.name, isStr, jsToString]
      · simp [inlineCondSql, hoeq, hF, Operator.name, isStr, jsToString]
      · have hx := relL_append (relL_noQ hnoq)
          (relL_one ([' '] ++ ['>'] ++ ['='] ++ [' ']) (by decide)
            (jOwnF fields "value") [] (by decide))
        unfold RelL at hx ⊢
        simp only [List.append_nil] at hx
        simp only [String.data_append, List.append_assoc]
        exact hx
  | lte =>
      refine ⟨fname ++ " <= ?", [jOwnF fields "value"],
        fname ++ " <= " ++ jsToString (jOwnF fields "value"), ?_, ?_, ?_⟩
      · simp [conditionToSql, hoeq, hF, Operator.name, isStr, jsToString]
      · simp [inlineCondSql, hoeq, hF, Operator.name, isStr, jsToString]
      · have hx := relL_append (relL_noQ hnoq)
          (relL_one ([' '] ++ ['<'] ++ ['='] ++ [' ']) (by decide)
            (jOwnF fields "value") [] (by decide))
        unfold RelL at hx ⊢
        simp only [List.append_nil] at hx
        simp only [String.data_append, List.append_assoc]
        exact hx
  | isIn =>
      simp only [Operator.name] at hoeq
      obtain ⟨xs, hval⟩ := validateValue_in_shape hoeq hvv
      refine ⟨fname ++ " IN (" ++ joinSep ", " (xs.map (fun _ => "?")) ++ ")", xs,
        fname ++ " IN (" ++ joinSep ", " (xs.map jsToString) ++ ")", ?_, ?_, ?_⟩
      · simp [conditionToSql, hoeq, hF, hval, isStr, jsToString]
      · simp [inlineCondSql, hoeq, hF, hval, isStr, jsToString]
      · have hx := relL_append (relL_noQ hnoq)
          (relL_append (relL_noQ (show ('?' : Char) ∉ (" IN (").data by decide))
            (relL_append (relL_join_qs xs)
              (relL_noQ (show ('?' : Char) ∉ (")").data by decide))))
        unfold RelL at hx ⊢
        simp only [List.append_nil, List.nil_append] at hx
        simp only [String.data_append, List.append_assoc]
        exact hx
  | between =>
      simp only [Operator.name] at hoeq
      obtain ⟨v0, v1, hval⟩ := validateValue_between_shape hoeq hvv
      refine ⟨fname ++ " BETWEEN ? AND ?", [v0, v1],
        fname ++ " BETWEEN " ++ jsToString v0 ++ " AND " ++ jsToString v1,
        ?_, ?_, ?_⟩
      · simp [conditionToSql, hoeq, hF, hval, isStr, jsToString]
      · simp [inlineCondSql, hoeq, hF, hval, isStr, jsToString]
      · have hx := relL_append (relL_noQ hnoq)
          (relL_append
            (relL_one (" BETWEEN ").data (by decide) v0 [] (by decide))
            (relL_one (" AND ").data (by decide) v1 [] (by decide)))
        unfold RelL at hx ⊢
        simp only [List.append_nil] at hx
        simp only [String.data_append, List.append_assoc]
        exact hx
  | contains =>
      refine ⟨fname ++ " LIKE ?",
        [.jstr ("%" ++ jsToString (jOwnF fields "value") ++ "%")],
        fname ++ " LIKE " ++ ("%" ++ jsToString (jOwnF fields "value") ++ "%"),
        ?_, ?_, ?_⟩
      · simp [conditionToSql, hoeq, hF, Operator.name, isStr, jsToString]
      · simp [inlineCondSql, hoeq, hF, Operator.name, isStr, jsToString]
      · have hx := relL_append (relL_noQ hnoq)
          (relL_one (" LIKE ").data (by decide)
            (.jstr ("%" ++ jsToString (jOwnF fields "value") ++ "%")) [] (by decide))
        unfold RelL at hx ⊢
        simp only [List.append_nil, jsToString] at hx
        simp only [String.data_append, List.append_assoc]
        exact hx
  | startsWith =>
      refine ⟨fname ++ " LIKE ?",
        [.jstr (jsToString (jOwnF fields "value") ++ "%")],
        fname ++ " LIKE " ++ (jsToString (jOwnF fields "value") ++ "%"),
        ?_, ?_, ?_⟩
      · simp [conditionToSql, hoeq, hF, Operator.name, isStr, jsToString]
      · simp [inlineCondSql, hoeq, hF, Operator.name, isStr, jsToString]
      · have hx := relL_append (relL_noQ hnoq)
          (relL_one (" LIKE ").data (by decide)
            (.jstr (jsToString (jOwnF fields "value") ++ "%")) [] (by decide))
        unfold RelL at hx ⊢
        simp only [List.append_nil, jsToString] at hx
        simp only [String.data_append, List.append_assoc]
        exact hx
  | endsWith =>
      refine ⟨fname ++ " LIKE ?",
        [.jstr ("%" ++ jsToString (jOwnF fields "value"))],
        fname ++ " LIKE " ++ ("%" ++ jsToString (jOwnF fields "value")),
        ?_, ?_, ?_⟩
      · simp [conditionToSql, hoeq, hF, Operator.name, isStr, jsToString]
      · simp [inlineCondSql, hoeq, hF, Operator.name, isStr, jsToString]
      · have hx := relL_append (relL_noQ hnoq)
          (relL_one (" LIKE ").data (by decide)
            (.jstr ("%" ++ jsToString (jOwnF fields "value"))) [] (by decide))
        unfold RelL at hx ⊢
        simp only [List.append_nil, jsToString] at hx
        simp only [String.data_append, List.append_assoc]
        exact hx
  | isNull =>
      refine ⟨fname ++ " IS NULL", [], fname ++ " IS NULL", ?_, ?_, ?_⟩
      · simp [conditionToSql, hoeq, hF, Operator.name, isStr, jsToString]
      · simp [inlineCondSql, hoeq, hF, Operator.name, isStr, jsToString]
      · have hx := relL_append (relL_noQ hnoq)
          (relL_noQ (show ('?' : Char) ∉ (" IS NULL").data by decide))
        unfold RelL at hx ⊢
        simp only [String.data_append]
        exact hx
  | isNotNull =>
      refine ⟨fname ++ " IS NOT NULL", [], fname ++ " IS NOT NULL", ?_, ?_, ?_⟩
      · simp [conditionToSql, hoeq, hF, Operator.name, isStr, jsToString]
      · simp [inlineCondSql, hoeq, hF, Operator.name, isStr, jsToString]
      · have hx := relL_append (relL_noQ hnoq)
          (relL_noQ (show ('?' : Char) ∉ (" IS NOT NULL").data by decide))
        unfold RelL at hx ⊢
        simp only [String.data_append]
        exact hx

theorem validateNode_group_elim {dp : String → Bool} {schema : List FieldSchema}
    {fields : List (String × JVal)} {path : String}
    (hk : hasKey fields "field" = false)
    (hv : validateNode dp schema (.jobj fields) path = .ok []) :
    (jOwnF fields "and" = .jundef ∨
      ∃ xs, jOwnF fields "and" = .jarr xs ∧
        validateList dp schema xs (path ++ ".and[") 0 = .ok []) ∧
    (jOwnF fields "or" = .jundef ∨
      ∃ xs, jOwnF fields "or" = .jarr xs ∧
        validateList dp schema xs (path ++ ".or[") 0 = .ok []) := by
  rw [validateNode] at hv
  simp only [hk, Bool.false_eq_true, if_false] at hv
  split at hv
  · -- and = jundef
    rename_i heqA
    split at hv
    · rename_i heqB
      exact ⟨Or.inl heqA, Or.inl heqB⟩
    · rename_i xs2 heqB
      cases hL : validateList dp schema xs2 (path ++ ".or[") 0 with
      | error e => rw [hL] at hv; simp [pure, Except.pure, except_ok_bind, except_error_bind] at hv
      | ok es =>
          rw [hL] at hv
          simp [pure, Except.pure, except_ok_bind, except_error_bind] at hv
          exact ⟨Or.inl heqA, Or.inr ⟨xs2, heqB, by rw [hL, hv]⟩⟩
    · rename_i v heqB
      simp [pure, Except.pure, except_ok_bind, except_error_bind] at hv
  · -- and = jarr xs
    rename_i xs heqA
    cases hL : validateList dp schema xs (path ++ ".and[") 0 with
    | error e =>
        rw [hL] at hv
        simp [pure, Except.pure, except_ok_bind, except_error_bind] at hv
    | ok es =>
        rw [hL] at hv
        split at hv
        · rename_i heqB
          simp [pure, Except.pure, except_ok_bind, except_error_bind] at hv
          exact ⟨Or.inr ⟨xs, heqA, by rw [hL, hv]⟩, Or.inl heqB⟩
        · rename_i xs2 heqB
          cases hL2 : validateList dp schema xs2 (path ++ ".or[") 0 with
          | error e2 => rw [hL2] at hv; simp [pure, Except.pure, except_ok_bind, except_error_bind] at hv
          | ok es2 =>
              rw [hL2] at hv
              simp [pure, Except.pure, except_ok_bind, except_error_bind, List.append_eq_nil] at hv
              obtain ⟨h1, h2⟩ := hv
              exact ⟨Or.inr ⟨xs, heqA, by rw [hL, h1]⟩,
                     Or.inr ⟨xs2, heqB, by rw [hL2, h2]⟩⟩
        · rename_i v heqB
          simp [pure, Except.pure, except_ok_bind, except_error_bind] at hv
  · -- and = other (error element)
    rename_i v heqA
    split at hv
    · simp [pure, Except.pure, except_ok_bind, except_error_bind] at hv
    · rename_i xs2 heqB
      cases hL2 : validateList dp schema xs2 (path ++ ".or[") 0 with
      | error e2 => rw [hL2] at hv; simp [pure, Except.pure, except_ok_bind, except_error_bind] at hv
      | ok es2 =>
          rw [hL2] at hv
          simp [pure, Except.pure, except_ok_bind, except_error_bind] at hv
    · simp [pure, Except.pure, except_ok_bind, except_error_bind] at hv

theorem validateList_nil_elim {dp : String → Bool} {schema : List FieldSchema} :
    ∀ {xs : List JVal} {base : String} {i : Nat},
      validateList dp schema xs base i = .ok [] →
      ∀ c ∈ xs, ∃ p, validateNode dp schema c p = .ok [] := by
  intro xs
  induction xs with
  | nil => intro base i _ c hc; simp at hc
  | cons a rest ih =>
      intro base i h c hc
      rw [validateList] at h
      cases hN : validateNode dp schema a (base ++ toString i ++ "]") with
      | error e => rw [hN] at h; simp [pure, Except.pure, except_ok_bind, except_error_bind] at h
      | ok e =>
          rw [hN] at h
          cases hL : validateList dp schema rest base (i + 1) with
          | error e2 => rw [hL] at h; simp [pure, Except.pure, except_ok_bind, except_error_bind] at h
          | ok es =>
              rw [hL] at h
              simp [pure, Except.pure, except_ok_bind, except_error_bind, List.append_eq_nil] at h
              obtain ⟨h1, h2⟩ := h
              rcases List.mem_cons.mp hc with rfl | hc2
              · exact ⟨base ++ toString i ++ "]", by rw [hN, h1]⟩
              · exact ih (by rw [hL, h2]) c hc2

/-- Pointwise correspondence carried by a compiled member list. -/
def SubRel (pr : String × JVal) (t : String) : Prop :=
  ∃ ps, pr.snd = .jarr ps ∧ RelL pr.fst.data ps t.data

theorem sqlList_rel {dp : String → Bool} {schema : List FieldSchema} {n : Nat}
    (ih : ∀ c, sizeOf c ≤ n → (∃ p, validateNode dp schema c p = .ok []) →
      ∃ s ps t, nodeToSql c = .ok (s, .jarr ps) ∧ inlineNodeSql c = .ok t ∧
        RelL s.data ps t.data) :
    ∀ xs : List JVal, (∀ c ∈ xs, sizeOf c ≤ n) →
      (∀ c ∈ xs, ∃ p, validateNode dp schema c p = .ok []) →
      ∃ subs ts, sqlList xs = .ok subs ∧ inlineSqlList xs = .ok ts ∧
        List.Forall₂ SubRel subs ts := by
  intro xs
  induction xs with
  | nil =>
      intro _ _
      exact ⟨[], [], by rw [sqlList], by rw [inlineSqlList], List.Forall₂.nil⟩
  | cons a rest ihl =>
      intro hsz hval
      obtain ⟨s, ps, t, hns, hin, hrel⟩ := ih a (hsz a (by simp)) (hval a (by simp))
      obtain ⟨subs, ts, hL1, hL2, hF2⟩ :=
        ihl (fun c hc => hsz c (by simp [hc])) (fun c hc => hval c (by simp [hc]))
      refine ⟨(s, .jarr ps) :: subs, t :: ts, ?_, ?_, ?_⟩
      · rw [sqlList, hns, hL1]; rfl
      · rw [inlineSqlList, hin, hL2]; rfl
      · exact List.Forall₂.cons ⟨ps, rfl, hrel⟩ hF2

theorem relL_joinSep {sep : String} (hsep : ('?' : Char) ∉ sep.data) :
    ∀ (subs : List (String × JVal)) (ts : List String),
      List.Forall₂ SubRel subs ts →
      RelL (joinSep sep (subs.map Prod.fst)).data (flatParams (subs.map Prod.snd))
           (joinSep sep ts).data := by
  intro subs
  induction subs with
  | nil =>
      intro ts h
      cases h
      unfold RelL
      exact substA_nilL []
  | cons pr rest ihs =>
      intro ts h
      cases h with
      | cons hpr hrest =>
          rename_i t ts'
          obtain ⟨ps, hps, hrel⟩ := hpr
          cases rest with
          | nil =>
              cases hrest
              simp only [List.map_cons, List.map_nil, joinSep_one, hps]
              have hfp : flatParams [JVal.jarr ps] = ps := by
                simp [flatParams]
              rw [hfp]
              exact hrel
          | cons pr2 rest2 =>
              cases hrest with
              | cons hpr2 hrest2 =>
                  rename_i t2 ts2
                  have ih2 := ihs _ (List.Forall₂.cons hpr2 hrest2)
                  have hx := relL_append hrel (relL_append (relL_noQ hsep) ih2)
                  unfold RelL at hx ⊢
                  simp only [List.map_cons, joinSep_cons2, String.data_append,
                    List.append_assoc, hps, flatParams, List.nil_append] at hx ⊢
                  exact hx

theorem nodeToSql_rel (dp : String → Bool) (schema : List FieldSchema)
    (hs : ∀ fs ∈ schema, ('?' : Char) ∉ fs.name.data) :
    ∀ (n : Nat) (node : JVal), sizeOf node ≤ n →
      (∃ p, validateNode dp schema node p = .ok []) →
      ∃ s ps t, nodeToSql node = .ok (s, .jarr ps) ∧ inlineNodeSql node = .ok t ∧
        RelL s.data ps t.data := by
  intro n
  induction n with
  | zero =>
      intro node hsz
      have := jval_sizeOf_pos node
      omega
  | succ n ihn =>
      intro node hsz hex
      obtain ⟨path, hv⟩ := hex
      cases node with
      | jobj fields =>
          by_cases hk : hasKey fields "field"
          · rw [validateNode] at hv
            simp only [hk, if_true] at hv
            have hvc : validateCondition dp schema fields path = [] := by
              injection hv
            obtain ⟨s, ps, t, h1, h2, h3⟩ := condSql_rel hs hvc
            refine ⟨s, ps, t, ?_, ?_, h3⟩
            · rw [nodeToSql]; simp [hk, h1]
            · rw [inlineNodeSql]; simp [hk, h2]
          · have hkf : hasKey fields "field" = false := eq_false_of_ne_true hk
            obtain ⟨hA, hB⟩ := validateNode_group_elim hkf hv
            have ihc : ∀ c, sizeOf c ≤ n →
                (∃ p, validateNode dp schema c p = .ok []) →
                ∃ s ps t, nodeToSql c = .ok (s, .jarr ps) ∧
                  inlineNodeSql c = .ok t ∧ RelL s.data ps t.data := ihn
            rcases hA with hA | ⟨xs1, hA, hLv1⟩ <;>
              rcases hB with hB | ⟨xs2, hB, hLv2⟩
            · -- no and, no or
              refine ⟨"()", [], "()", ?_, ?_, relL_noQ (by decide)⟩
              · rw [nodeToSql]
                simp only [hkf, Bool.false_eq_true, if_false]
                rw [hA, hB]
                simp [truthy, pure, Except.pure, except_ok_bind, joinSep_nil]
                try decide
              · rw [inlineNodeSql]
                simp only [hkf, Bool.false_eq_true, if_false]
                rw [hA, hB]
                simp [truthy, pure, Except.pure, except_ok_bind, joinSep_nil]
                try decide
            · -- or only
              obtain ⟨subs, ts, hSL, hIL, hF2⟩ := sqlList_rel ihc xs2
                (fun c hc => by
                  have := sizeOf_mem_of_jOwnF hB hc
                  omega)
                (validateList_nil_elim hLv2)
              refine ⟨"(" ++ joinSep " OR " (subs.map Prod.fst) ++ ")",
                flatParams (subs.map Prod.snd),
                "(" ++ joinSep " OR " ts ++ ")", ?_, ?_, ?_⟩
              · rw [nodeToSql]
                simp only [hkf, Bool.false_eq_true, if_false]
                rw [hA, hB]
                simp [truthy, pure, Except.pure, except_ok_bind, hSL, joinSep_one]
              · rw [inlineNodeSql]
                simp only [hkf, Bool.false_eq_true, if_false]
                rw [hA, hB]
                simp [truthy, pure, Except.pure, except_ok_bind, hIL, joinSep_one]
              · have hx := relL_append
                  (relL_noQ (show ('?' : Char) ∉ ("(").data by decide))
                  (relL_append (@relL_joinSep " OR " (by decide) subs ts hF2)
                    (relL_noQ (show ('?' : Char) ∉ (")").data by decide)))
                unfold RelL at hx ⊢
                simp only [List.append_nil, List.nil_append] at hx
                simp only [String.data_append, List.append_assoc]
                exact hx
            · -- and only
              obtain ⟨subs, ts, hSL, hIL, hF2⟩ := sqlList_rel ihc xs1
                (fun c hc => by
                  have := sizeOf_mem_of_jOwnF hA hc
                  omega)
                (validateList_nil_elim hLv1)
              refine ⟨"(" ++ joinSep " AND " (subs.map Prod.fst) ++ ")",
                flatParams (subs.map Prod.snd),
                "(" ++ joinSep " AND " ts ++ ")", ?_, ?_, ?_⟩
              · rw [nodeToSql]
                simp only [hkf, Bool.false_eq_true, if_false]
                rw [hA, hB]
                simp [truthy, pure, Except.pure, except_ok_bind, hSL, joinSep_one]
              · rw [inlineNodeSql]
                simp only [hkf, Bool.false_eq_true, if_false]
                rw [hA, hB]
                simp [truthy, pure, Except.pure, except_ok_bind, hIL, joinSep_one]
              · have hx := relL_append
                  (relL_noQ (show ('?' : Char) ∉ ("(").data by decide))
                  (relL_append (@relL_joinSep " AND " (by decide) subs ts hF2)
                    (relL_noQ (show ('?' : Char) ∉ (")").data by decide)))
                unfold RelL at hx ⊢
                simp only [List.append_nil, List.nil_append] at hx
                simp only [String.data_append, List.append_assoc]
                exact hx
            · -- both and and or
              obtain ⟨subs1, ts1, hSL1, hIL1, hF21⟩ := sqlList_rel ihc xs1
                (fun c hc => by
                  have := sizeOf_mem_of_jOwnF hA hc
                  omega)
                (validateList_nil_elim hLv1)
              obtain ⟨subs2, ts2, hSL2, hIL2, hF22⟩ := sqlList_rel ihc xs2
                (fun c hc => by
                  have := sizeOf_mem_of_jOwnF hB hc
                  omega)
                (validateList_nil_elim hLv2)
              refine ⟨"(" ++ (joinSep " AND " (subs1.map Prod.fst) ++ " AND " ++
                  joinSep " OR " (subs2.map Prod.fst)) ++ ")",
                flatParams (subs1.map Prod.snd) ++ flatParams (subs2.map Prod.snd),
                "(" ++ (joinSep " AND " ts1 ++ " AND " ++
                  joinSep " OR " ts2) ++ ")", ?_, ?_, ?_⟩
              · rw [nodeToSql]
                simp only [hkf, Bool.false_eq_true, if_false]
                rw [hA, hB]
                simp [truthy, pure, Except.pure, except_ok_bind, hSL1, hSL2,
                  joinSep_cons2, joinSep_one]
              · rw [inlineNodeSql]
                simp only [hkf, Bool.false_eq_true, if_false]
                rw [hA, hB]
                simp [truthy, pure, Except.pure, except_ok_bind, hIL1, hIL2,
                  joinSep_cons2, joinSep_one]
              · have hx := relL_append
                  (relL_noQ (show ('?' : Char) ∉ ("(").data by decide))
                  (relL_append
                    (relL_append (@relL_joinSep " AND " (by decide) subs1 ts1 hF21)
                      (relL_append
                        (relL_noQ (show ('?' : Char) ∉ (" AND ").data by decide))
                        (@relL_joinSep " OR " (by decide) subs2 ts2 hF22)))
                    (relL_noQ (show ('?' : Char) ∉ (")").data by decide)))
                unfold RelL at hx ⊢
                simp only [List.append_nil, List.nil_append] at hx
                simp only [String.data_append, List.append_assoc] at hx ⊢
                exact hx
      | jarr xs =>
          refine ⟨"()", [], "()", ?_, ?_, relL_noQ (by decide)⟩
          · rw [nodeToSql]
          · rw [inlineNodeSql]
      | jdate t =>
          refine ⟨"()", [], "()", ?_, ?_, relL_noQ (by decide)⟩
          · rw [nodeToSql]
          · rw [inlineNodeSql]
      | jnull => simp [validateNode] at hv
      | jundef => simp [validateNode] at hv
      | jbool b => simp [validateNode] at hv
      | jnum m => simp [validateNode] at hv
      | jstr s => simp [validateNode] at hv

/-- C1: for every filter that validates cleanly (against a schema whose
field names contain no `?` character, as `userSchema`'s do), the SQL
compiler emits a string and a params array such that substituting the
params into the `?` placeholders from left to right consumes exactly the
params list and yields exactly the inline compilation of the same filter
(each parameter rendered in place of its own placeholder, depth first);
in particular the number of `?` placeholders equals the params length. -/
theorem claim_C1_sql_params_match_placeholders
    (dp : String → Bool) (schema : List FieldSchema) (f : JVal)
    (hs : ∀ fs ∈ schema, ('?' : Char) ∉ fs.name.data)
    (hv : validate dp schema f = .ok []) :
    ∃ s ps t, toSqlWhere f = .ok (s, .jarr ps) ∧ inlineSqlWhere f = .ok t ∧
      substA s.data ps = some (t.data, []) ∧
      s.data.count '?' = ps.length := by
  by_cases ht : truthy f = false
  · refine ⟨"1=1", [], "1=1", ?_, ?_, ?_, ?_⟩
    · simp [toSqlWhere, ht]
    · simp [inlineSqlWhere, ht]
    · exact relL_noQ (by decide)
    · decide
  · rw [validate, if_neg ht] at hv
    obtain ⟨s, ps, t, h1, h2, h3⟩ :=
      nodeToSql_rel dp schema hs (sizeOf f) f le_rfl ⟨"<root>", hv⟩
    refine ⟨s, ps, t, ?_, ?_, h3, substA_count h3⟩
    · rw [toSqlWhere, if_neg ht]; exact h1
    · rw [inlineSqlWhere, if_neg ht]; exact h2

/-- Witness for C1 at the nested test filter
`{and: [age > 30, {or: [role = admin, isActive = true]}]}` under
`userSchema`. -/
theorem claim_C1_sql_params_match_placeholders_witness :
    ∃ s ps t,
      toSqlWhere
        (.jobj [("and", .jarr
          [.jobj [("field", .jstr "age"), ("operator", .jstr "gt"), ("value", .jnum 30)],
           .jobj [("or", .jarr
             [.jobj [("field", .jstr "role"), ("operator", .jstr "eq"),
                     ("value", .jstr "admin")],
              .jobj [("field", .jstr "isActive"), ("operator", .jstr "eq"),
                     ("value", .jbool true)]])]])]) = .ok (s, .jarr ps) ∧
      inlineSqlWhere
        (.jobj [("and", .jarr
          [.jobj [("field", .jstr "age"), ("operator", .jstr "gt"), ("value", .jnum 30)],
           .jobj [("or", .jarr
             [.jobj [("field", .jstr "role"), ("operator", .jstr "eq"),
                     ("value", .jstr "admin")],
              .jobj [("field", .jstr "isActive"), ("operator", .jstr "eq"),
                     ("value", .jbool true)]])]])]) = .ok t ∧
      substA s.data ps = some (t.data, []) ∧
      s.data.count '?' = ps.length := by
  apply claim_C1_sql_params_match_placeholders (fun _ => false) userSchema
  · decide
  · simp [validate, validateNode, validateList, validateCondition, validateValue,
      checkType, truthy, hasKey, jOwnF, List.find?, schemaGetV, schemaGet,
      userSchema, opIncludes, allowedOpsOf, defaultOperators, isStr, isUndef,
      Operator.name, pure, Except.pure, except_ok_bind, except_error_bind]

end CustomFilter
